import Mathlib

/-!
Shallow embedding of the calc-regex core (expression graph, three-mode
interpreter, capture stack, record queries, byte sources) together with
theorems checking the specification's claims against it.

Conventions of the embedding:
* bytes are `List Nat`;
* the compiled regex matcher is an opaque predicate `RegexM` (pattern string
  plus an anchored full-match test), mirroring the external matcher
  collaborator;
* Rust `usize` subtraction is modelled by `csub`, which returns the `fault`
  outcome on underflow (debug-profile overflow check), and `panic!` sites are
  modelled by the same `fault` outcome;
* the mutually recursive interpreter takes a step budget (`fuel`); running out
  of budget yields the distinguished outcome `div`, so every `ok`/`err`/`fault`
  outcome agrees with the source's behaviour;
* Rust `HashMap<String, _>` children maps are association lists with
  replace-on-insert semantics (iteration order is never observed).
-/

set_option linter.unusedVariables false
set_option maxRecDepth 4000

namespace CalcRegexProof

/-- Byte strings. -/
abbrev Bytes := List Nat

/-- The opaque compiled matcher: a pattern (for error reports) and an anchored
full-match predicate, mirroring `regex::bytes::Regex::is_match` as used by
the reader. -/
structure RegexM where
  str : String
  is_match : Bytes → Bool

/-- `error::ParserError`. `IoError` drops the wrapped `io::Error` payload. -/
inductive ParserError where
  | Regex (regex : String) (value : Bytes)
  | UnexpectedEof
  | ConflictingBounds (old : Nat) (new : Nat)
  | CannotReadCount (raw_count : Bytes)
  | IoError
  | TrailingCharacters
  deriving DecidableEq, Repr

/-- `error::NameError`. -/
inductive NameError where
  | NoSuchName (name : String)
  | OutOfBounds (name : String) (index : Nat) (len : Nat)
  | MisplacedSingleAccess (name : String)
  | MisplacedRepeatAccess (name : String)
  | InvalidCaptureName (message : String)
  deriving DecidableEq, Repr

/-- A single tick character `'` (0x27), used for name disambiguation. -/
def tickStr : String := String.mk [Char.ofNat 39]

/-- `name.starts_with('$')` from the capture-stack code. -/
def startsWithDollar (s : String) : Bool :=
  match s.toList with
  | [] => false
  | c :: _ => c == '$'

mutual
/-- `reader::Capture`: a single capture or a repeat capture. -/
inductive Capture where
  | Single : SingleCapture → Capture
  | Repeat : List SingleCapture → Capture

/-- `reader::SingleCapture`: byte range plus named children. -/
inductive SingleCapture where
  | mk : Nat → Nat → List (String × Capture) → SingleCapture
end

def SingleCapture.start_pos : SingleCapture → Nat
  | .mk s _ _ => s

def SingleCapture.end_pos : SingleCapture → Nat
  | .mk _ e _ => e

def SingleCapture.children : SingleCapture → List (String × Capture)
  | .mk _ _ cs => cs

/-- Association-list lookup (models `HashMap::get`). -/
def alGet (k : String) : List (String × Capture) → Option Capture
  | [] => none
  | (k₀, v₀) :: rest => if k₀ == k then some v₀ else alGet k rest

/-- Association-list insert with replacement (models `HashMap::insert`). -/
def alInsert (k : String) (v : Capture) : List (String × Capture) → List (String × Capture)
  | [] => [(k, v)]
  | (k₀, v₀) :: rest => if k₀ == k then (k, v) :: rest else (k₀, v₀) :: alInsert k v rest

/-- Association-list key membership (models `HashMap::contains_key`). -/
def alContains (k : String) (l : List (String × Capture)) : Bool :=
  (alGet k l).isSome

/-- `reader::ArrayInput`: an in-memory byte array with a detach point and a
read position. -/
structure ArrayInput where
  input : Bytes
  start : Nat
  pos : Nat
  deriving Repr

namespace ArrayInput

/-- `Input::pos` for arrays: bytes read since the last detach. -/
def getPos (i : ArrayInput) : Nat := i.pos - i.start

/-- `Input::bytes` for arrays: `input[start..pos]`. -/
def bytes (i : ArrayInput) : Bytes := (i.input.drop i.start).take (i.pos - i.start)

/-- `Input::read_next` for arrays. -/
def read_next (i : ArrayInput) : Except ParserError ArrayInput :=
  if i.pos + 1 > i.input.length then .error .UnexpectedEof
  else .ok { i with pos := i.pos + 1 }

/-- `Input::read_n` for arrays. -/
def read_n (i : ArrayInput) (n : Nat) : Except ParserError ArrayInput :=
  if i.pos + n > i.input.length then .error .UnexpectedEof
  else .ok { i with pos := i.pos + n }

/-- `Input::is_empty` for arrays. -/
def is_empty (i : ArrayInput) : Except ParserError (Bool × ArrayInput) :=
  .ok (i.pos == i.input.length, i)

/-- `Input::split_here` for arrays. -/
def split_here (i : ArrayInput) : Bytes × ArrayInput :=
  ((i.input.drop i.start).take (i.pos - i.start), { i with start := i.pos })

end ArrayInput

/-- `reader::Reader` over an array input: the byte source plus the capture
stack.  The head of `captures` is the top of the stack. -/
structure Reader where
  input : ArrayInput
  captures : List (String × Capture)

/-- A fresh reader over an input array (`Reader::from_array`). -/
def Reader.from_array (input : Bytes) : Reader :=
  { input := { input := input, start := 0, pos := 0 }, captures := [] }

/-- `Reader::pos`. -/
def Reader.pos (r : Reader) : Nat := r.input.getPos

/-- Bytes read so far, `Reader`'s view (`self.input.bytes()`). -/
def Reader.bytesR (r : Reader) : Bytes := r.input.bytes

/-- `Reader::get_range`: `&self.input.bytes()[start..end]`. -/
def Reader.get_range (r : Reader) (range : Nat × Nat) : Bytes :=
  ((r.bytesR).drop range.1).take (range.2 - range.1)

/-- Outcome of a parsing step: success with a value and the updated reader, a
recoverable `ParserError`, an unrecoverable fault (Rust panic / debug-mode
arithmetic overflow), or an exhausted step budget. -/
inductive PR (α : Type) where
  | ok : α → Reader → PR α
  | err : ParserError → PR α
  | fault : PR α
  | div : PR α

/-- State-passing parse computations. -/
def ParseM (α : Type) : Type := Reader → PR α

def ParseM.pure (a : α) : ParseM α := fun r => .ok a r

def ParseM.bind (m : ParseM α) (f : α → ParseM β) : ParseM β := fun r =>
  match m r with
  | .ok a r' => f a r'
  | .err e => .err e
  | .fault => .fault
  | .div => .div

instance : Monad ParseM where
  pure := ParseM.pure
  bind := ParseM.bind

/-- Raise a `ParserError`. -/
def throwM (e : ParserError) : ParseM α := fun _ => .err e

/-- An unrecoverable fault (panic). -/
def faultM : ParseM α := fun _ => .fault

/-- Out of step budget. -/
def divM : ParseM α := fun _ => .div

/-- Checked `usize` subtraction: underflow is a debug-mode panic. -/
def csubM (a b : Nat) : ParseM Nat :=
  if b ≤ a then ParseM.pure (a - b) else faultM

/-- Lift an input operation into the parse monad. -/
def liftInput (f : ArrayInput → Except ParserError ArrayInput) : ParseM Unit := fun r =>
  match f r.input with
  | .ok i => .ok () { r with input := i }
  | .error e => .err e

def read_nextM : ParseM Unit := liftInput ArrayInput.read_next

def read_nM (n : Nat) : ParseM Unit := liftInput (fun i => i.read_n n)

def getPosM : ParseM Nat := fun r => .ok r.pos r

def getBytesM : ParseM Bytes := fun r => .ok r.bytesR r

def getRangeM (range : Nat × Nat) : ParseM Bytes := fun r => .ok (r.get_range range) r

def is_emptyM : ParseM Bool := fun r =>
  match r.input.is_empty with
  | .ok (b, i) => .ok b { r with input := i }
  | .error e => .err e

/-- First `Single`-kind capture on the stack, scanned from the top
(`get_last_where` with a kind predicate, used by `get_unique_name`). -/
def firstSingleOnStack : List (String × Capture) → Option SingleCapture
  | [] => none
  | (_, .Single c) :: _ => some c
  | (_, .Repeat _) :: rest => firstSingleOnStack rest

/-- Tick-appending loop of `get_unique_name`.  The budget
`children.length + 1` is exactly enough: candidate names are pairwise
distinct, so at most `children.length` of them can collide with keys. -/
def uniqueNameAux (children : List (String × Capture)) : Nat → String → String
  | 0, name => name
  | k + 1, name =>
    if alContains name children then uniqueNameAux children k (name ++ tickStr)
    else name

/-- `Reader::get_unique_name`. -/
def Reader.get_unique_name (r : Reader) (name : String) : String :=
  match firstSingleOnStack r.captures with
  | some c => uniqueNameAux c.children (c.children.length + 1) name
  | none => name

/-- Pure effect of `Reader::start_capture`. -/
def Reader.startCapF (r : Reader) (name : String) : Reader :=
  { r with captures :=
      (r.get_unique_name name, .Single (.mk r.pos 0 [])) :: r.captures }

/-- `Reader::start_capture`. -/
def start_captureM (name : String) : ParseM Unit := fun r => .ok () (r.startCapF name)

/-- `Reader::init_capture`. -/
def init_captureM (name : String) : ParseM Unit := fun r =>
  .ok () { r with captures := (name, .Single (.mk r.pos 0 [])) :: r.captures }

/-- `Reader::finalize_capture`: stamps the end position of the lone remaining
capture.  The debug assertions (stack depth 1, matching name) and the
"expected single capture" panic are faults. -/
def finalize_captureM (name : String) : ParseM Unit := fun r =>
  match r.captures with
  | [(n, .Single c)] =>
    if n == name then
      .ok () { r with captures := [(n, .Single (.mk c.start_pos r.pos c.children))] }
    else .fault
  | _ => .fault

/-- `Reader::start_repeat`: pushes an anonymous repeat scope. -/
def start_repeatM : ParseM Unit := fun r =>
  .ok () { r with captures := ("", .Repeat []) :: r.captures }

/-- Commit a finished single capture to the nearest non-`$` ancestor
(`finish_capture`'s tail).  `none` models the panics (no ancestor, or
repeat-name mismatch caught by the debug assertions). -/
def commitSingle (saved : String) (cap : SingleCapture) :
    List (String × Capture) → Option (List (String × Capture))
  | [] => none
  | (pn, pc) :: rest =>
    if startsWithDollar pn then
      (commitSingle saved cap rest).map ((pn, pc) :: ·)
    else
      match pc with
      | .Repeat caps =>
        if caps.isEmpty then
          if pn == "" then some ((saved, .Repeat (caps ++ [cap])) :: rest) else none
        else
          if pn == saved then some ((pn, .Repeat (caps ++ [cap])) :: rest) else none
      | .Single c =>
        some ((pn, .Single (.mk c.start_pos c.end_pos (alInsert saved (.Single cap) c.children))) :: rest)

/-- `Reader::finish_capture`. -/
def finish_captureM (name : String) : ParseM Unit := fun r =>
  match r.captures with
  | (saved, .Single c) :: rest =>
    if name.toList.isPrefixOf saved.toList then
      match commitSingle saved (.mk c.start_pos r.pos c.children) rest with
      | some captures => .ok () { r with captures := captures }
      | none => .fault
    else .fault
  | _ => .fault

/-- Commit a finished repeat capture to the nearest non-`$` ancestor, which
must be a `Single` scope (`finish_repeat`'s tail). -/
def commitRepeat (name : String) (rep : List SingleCapture) :
    List (String × Capture) → Option (List (String × Capture))
  | [] => none
  | (pn, pc) :: rest =>
    if startsWithDollar pn then
      (commitRepeat name rep rest).map ((pn, pc) :: ·)
    else
      match pc with
      | .Single c =>
        some ((pn, .Single (.mk c.start_pos c.end_pos (alInsert name (.Repeat rep) c.children))) :: rest)
      | .Repeat _ => none

/-- `Reader::finish_repeat`. -/
def finish_repeatM : ParseM Unit := fun r =>
  match r.captures with
  | (name, .Repeat rep) :: rest =>
    match commitRepeat name rep rest with
    | some captures => .ok () { r with captures := captures }
    | none => .fault
  | _ => .fault

/-- `calc_regex::Inner`: the production kinds.  Node references are indices
into the owning graph's node vector.  `f` is the decode function of a counted
production. -/
inductive Inner where
  | Regex (re : RegexM)
  | CalcRegex (idx : Nat)
  | Concat (r : Nat) (s : Nat)
  | Repeat (idx : Nat) (n : Nat)
  | KleeneStar (idx : Nat)
  | LengthCount (r : Nat) (s : Option Nat) (t : Nat) (f : Bytes → Option Nat)
  | OccurrenceCount (r : Nat) (s : Option Nat) (t : Nat) (f : Bytes → Option Nat)

/-- `calc_regex::Node`. -/
structure Node where
  name : Option String
  length_bound : Option Nat
  inner : Inner

/-- `calc_regex::CalcRegex`: flat node store plus root index. -/
structure CalcRegex where
  nodes : List Node
  root : Nat

namespace CalcRegex

/-- `CalcRegex::get_node` (by possibly-invalid index; the source indexes the
vector directly and would panic on an invalid index). -/
def getNode? (cr : CalcRegex) (idx : Nat) : Option Node := cr.nodes.get? idx

/-- `CalcRegex::get_position_by_name`. -/
def get_position_by_name (cr : CalcRegex) (name : String) : Option Nat :=
  cr.nodes.findIdx? (fun node => node.name == some name)

/-- The node-vector effect of `CalcRegex::set_length_bound`
(`get_node_mut_by_name` followed by the bound store): update the first node
carrying `name`, or `none` if there is none. -/
def setBoundNodes (name : String) (bound : Nat) : List Node → Option (List Node)
  | [] => none
  | nd :: rest =>
    if nd.name == some name then
      some ({ nd with length_bound := some bound } :: rest)
    else
      (setBoundNodes name bound rest).map (nd :: ·)

/-- `CalcRegex::set_length_bound`. -/
def set_length_bound (cr : CalcRegex) (name : String) (bound : Nat) :
    Except NameError CalcRegex :=
  match setBoundNodes name bound cr.nodes with
  | none => .error (.NoSuchName name)
  | some nodes => .ok { cr with nodes := nodes }

/-- `CalcRegex::set_root_by_name`. -/
def set_root_by_name (cr : CalcRegex) (name : String) : Except NameError CalcRegex :=
  match cr.get_position_by_name name with
  | none => .error (.NoSuchName name)
  | some pos => .ok { cr with root := pos }

end CalcRegex

/-- Loop of `Reader::match_regex_unbounded`: read a byte at a time until the
regex matches the bytes read since `start_pos`. -/
def mruLoop (re : RegexM) (start_pos : Nat) : Nat → ParseM Unit
  | 0 => divM
  | fuel + 1 => fun r =>
    if re.is_match (r.bytesR.drop start_pos) then .ok () r
    else (ParseM.bind read_nextM (fun _ => mruLoop re start_pos fuel)) r

/-- `Reader::match_regex_unbounded`. -/
def match_regex_unbounded (re : RegexM) (fuel : Nat) : ParseM Unit := do
  let start_pos ← getPosM
  mruLoop re start_pos fuel

/-- Loop of `Reader::match_regex_bounded`: up to the remaining budget, read a
byte and test; a spent budget reports the mismatching bytes. -/
def mrbLoop (re : RegexM) (start_pos : Nat) : Nat → ParseM Unit
  | 0 => fun r => .err (.Regex re.str (r.bytesR.drop start_pos))
  | k + 1 => do
    read_nextM
    let b ← getBytesM
    if re.is_match (b.drop start_pos) then ParseM.pure ()
    else mrbLoop re start_pos k

/-- `Reader::match_regex_bounded`. -/
def match_regex_bounded (re : RegexM) (bound : Nat) : ParseM Unit := fun r =>
  if re.is_match [] then .ok () r
  else
    (do
      let start_pos ← getPosM
      mrbLoop re start_pos bound) r

/-- `Reader::match_regex_exact`. -/
def match_regex_exact (re : RegexM) (length : Nat) : ParseM Unit := do
  let start_pos ← getPosM
  read_nM length
  let b ← getBytesM
  let value := b.drop start_pos
  if re.is_match value then ParseM.pure ()
  else throwM (.Regex re.str value)

/-- `CalcRegex::read_count`: bracket the count sub-parse in a `"$count"`
capture, slice exactly the bytes it spanned, and decode them.  The closure's
result (the updated bound/length in bounded/exact mode) is returned alongside
the decoded count. -/
def read_count (f : Bytes → Option Nat) (p : ParseM α) : ParseM (α × Nat) := do
  start_captureM "$count"
  let start_pos ← getPosM
  let a ← p
  finish_captureM "$count"
  let end_pos ← getPosM
  let raw ← getRangeM (start_pos, end_pos)
  match f raw with
  | some count => ParseM.pure (a, count)
  | none => throwM (.CannotReadCount raw)

/-- `if let Some(name) = node.name { start_capture(name) }`. -/
def startNameM : Option String → ParseM Unit
  | some name => start_captureM name
  | none => ParseM.pure ()

/-- `if let Some(name) = node.name { finish_capture(name) }`. -/
def finishNameM : Option String → ParseM Unit
  | some name => finish_captureM name
  | none => ParseM.pure ()

mutual

/-- `Reader::parse_unbounded`: wraps `CalcRegex::parse_unbounded` with
node-level bound enforcement and captures; returns the bytes consumed. -/
def Reader.parse_unbounded (cr : CalcRegex) : Nat → Nat → ParseM Nat
  | 0, _ => divM
  | fuel + 1, node_index =>
    match cr.getNode? node_index with
    | none => faultM
    | some node => do
      let start_pos ← getPosM
      startNameM node.name
      (match node.length_bound with
       | some bound => CalcRegex.parse_bounded cr fuel node bound
       | none => CalcRegex.parse_unbounded cr fuel node)
      finishNameM node.name
      let end_pos ← getPosM
      ParseM.pure (end_pos - start_pos)
  termination_by structural fuel idx => fuel

/-- `Reader::parse_bounded`: wraps `CalcRegex::parse_bounded`, tightening the
incoming bound by the node's own `length_bound`; returns the bytes consumed. -/
def Reader.parse_bounded (cr : CalcRegex) : Nat → Nat → Nat → ParseM Nat
  | 0, _, _ => divM
  | fuel + 1, node_index, bound =>
    match cr.getNode? node_index with
    | none => faultM
    | some node => do
      let start_pos ← getPosM
      startNameM node.name
      CalcRegex.parse_bounded cr fuel node
        (match node.length_bound with
         | some n => min bound n
         | none => bound)
      finishNameM node.name
      let end_pos ← getPosM
      ParseM.pure (end_pos - start_pos)
  termination_by structural fuel idx bound => fuel

/-- `Reader::parse_exact`: wraps `CalcRegex::parse_exact`, first rejecting a
node whose declared bound is smaller than the requested exact length. -/
def Reader.parse_exact (cr : CalcRegex) : Nat → Nat → Nat → ParseM Unit
  | 0, _, _ => divM
  | fuel + 1, node_index, length =>
    match cr.getNode? node_index with
    | none => faultM
    | some node =>
      match node.length_bound with
      | some length_bound =>
        if length_bound < length then
          throwM (.ConflictingBounds length length_bound)
        else do
          startNameM node.name
          CalcRegex.parse_exact cr fuel node length
          finishNameM node.name
      | none => do
        startNameM node.name
        CalcRegex.parse_exact cr fuel node length
        finishNameM node.name
  termination_by structural fuel idx length => fuel

/-- `CalcRegex::parse_unbounded`. -/
def CalcRegex.parse_unbounded (cr : CalcRegex) : Nat → Node → ParseM Unit
  | 0, _ => divM
  | fuel + 1, node =>
    match node.inner with
    | .Regex re => match_regex_unbounded re fuel
    | .CalcRegex idx => do
      let _ ← Reader.parse_unbounded cr fuel idx
      ParseM.pure ()
    | .Concat r s => do
      let _ ← Reader.parse_unbounded cr fuel r
      let _ ← Reader.parse_unbounded cr fuel s
      ParseM.pure ()
    | .Repeat idx n => do
      start_repeatM
      unboundedLoop cr fuel idx n
      finish_repeatM
    | .KleeneStar _ => faultM
    | .LengthCount r s t f => do
      let (_, count) ← read_count f (do
        let _ ← Reader.parse_unbounded cr fuel r
        ParseM.pure ())
      (match s with
       | some si => do
         let _ ← Reader.parse_unbounded cr fuel si
         ParseM.pure ()
       | none => ParseM.pure ())
      start_captureM "$value"
      Reader.parse_exact cr fuel t count
      finish_captureM "$value"
    | .OccurrenceCount r s t f => do
      let (_, count) ← read_count f (do
        let _ ← Reader.parse_unbounded cr fuel r
        ParseM.pure ())
      (match s with
       | some si => do
         let _ ← Reader.parse_unbounded cr fuel si
         ParseM.pure ()
       | none => ParseM.pure ())
      start_captureM "$value"
      start_repeatM
      unboundedLoop cr fuel t count
      finish_repeatM
      finish_captureM "$value"
  termination_by structural fuel node => fuel

/-- `CalcRegex::parse_bounded`. -/
def CalcRegex.parse_bounded (cr : CalcRegex) : Nat → Node → Nat → ParseM Unit
  | 0, _, _ => divM
  | fuel + 1, node, bound =>
    match node.inner with
    | .Regex re => match_regex_bounded re bound
    | .CalcRegex idx => do
      let _ ← Reader.parse_bounded cr fuel idx bound
      ParseM.pure ()
    | .Concat r s => do
      let length_r ← Reader.parse_bounded cr fuel r bound
      let bound_s ← csubM bound length_r
      let _ ← Reader.parse_bounded cr fuel s bound_s
      ParseM.pure ()
    | .Repeat idx n => do
      start_repeatM
      let _ ← boundedLoop cr fuel idx n bound
      finish_repeatM
    | .KleeneStar _ => faultM
    | .LengthCount r s t f => do
      let (bound₁, count) ← read_count f (do
        let c ← Reader.parse_bounded cr fuel r bound
        csubM bound c)
      let bound₂ ← (match s with
        | some si => do
          let c ← Reader.parse_bounded cr fuel si bound₁
          csubM bound₁ c
        | none => ParseM.pure bound₁)
      if bound₂ < count then throwM (.ConflictingBounds bound₂ count)
      else do
        start_captureM "$value"
        Reader.parse_exact cr fuel t count
        finish_captureM "$value"
    | .OccurrenceCount r s t f => do
      let (bound₁, count) ← read_count f (do
        let c ← Reader.parse_bounded cr fuel r bound
        csubM bound c)
      let bound₂ ← (match s with
        | some si => do
          let c ← Reader.parse_bounded cr fuel si bound₁
          csubM bound₁ c
        | none => ParseM.pure bound₁)
      start_captureM "$value"
      start_repeatM
      let _ ← boundedLoop cr fuel t count bound₂
      finish_repeatM
      finish_captureM "$value"
  termination_by structural fuel node bound => fuel

/-- `CalcRegex::parse_exact`. -/
def CalcRegex.parse_exact (cr : CalcRegex) : Nat → Node → Nat → ParseM Unit
  | 0, _, _ => divM
  | fuel + 1, node, length =>
    match node.inner with
    | .Regex re => match_regex_exact re length
    | .CalcRegex idx => Reader.parse_exact cr fuel idx length
    | .Concat r s => do
      let length_r ← Reader.parse_bounded cr fuel r length
      let length_s ← csubM length length_r
      Reader.parse_exact cr fuel s length_s
    | .Repeat idx n => do
      start_repeatM
      let k ← csubM n 1
      let length' ← boundedLoop cr fuel idx k length
      Reader.parse_exact cr fuel idx length'
      finish_repeatM
    | .KleeneStar idx => do
      start_repeatM
      kleeneLoop cr fuel idx length
      finish_repeatM
    | .LengthCount r s t f => do
      let (length₁, count) ← read_count f (do
        let c ← Reader.parse_bounded cr fuel r length
        csubM length c)
      (match s with
       | some si => do
         let d ← csubM length₁ count
         Reader.parse_exact cr fuel si d
       | none =>
         if length₁ ≠ count then throwM (.ConflictingBounds length₁ count)
         else ParseM.pure ())
      start_captureM "$value"
      Reader.parse_exact cr fuel t count
      finish_captureM "$value"
    | .OccurrenceCount r s t f => do
      let (length₁, count) ← read_count f (do
        let c ← Reader.parse_bounded cr fuel r length
        csubM length c)
      let length₂ ← (match s with
        | some si => do
          let c ← Reader.parse_bounded cr fuel si length₁
          csubM length₁ c
        | none => ParseM.pure length₁)
      start_captureM "$value"
      start_repeatM
      let k ← csubM count 1
      let length₃ ← boundedLoop cr fuel t k length₂
      Reader.parse_exact cr fuel t length₃
      finish_repeatM
      finish_captureM "$value"
  termination_by structural fuel node length => fuel

/-- `for _ in 0..n { reader.parse_unbounded(...) }`. -/
def unboundedLoop (cr : CalcRegex) : Nat → Nat → Nat → ParseM Unit
  | 0, _, _ => divM
  | _ + 1, _, 0 => ParseM.pure ()
  | fuel + 1, idx, n + 1 => do
    let _ ← Reader.parse_unbounded cr fuel idx
    unboundedLoop cr fuel idx n
  termination_by structural fuel idx n => fuel

/-- `for _ in 0..n { bound -= reader.parse_bounded(..., bound) }`; returns
the final bound. -/
def boundedLoop (cr : CalcRegex) : Nat → Nat → Nat → Nat → ParseM Nat
  | 0, _, _, _ => divM
  | _ + 1, _, 0, bound => ParseM.pure bound
  | fuel + 1, idx, n + 1, bound => do
    let c ← Reader.parse_bounded cr fuel idx bound
    let bound' ← csubM bound c
    boundedLoop cr fuel idx n bound'
  termination_by structural fuel idx n bound => fuel

/-- `while length > 0 { length -= reader.parse_bounded(..., length) }` of the
exact-mode Kleene-star arm. -/
def kleeneLoop (cr : CalcRegex) : Nat → Nat → Nat → ParseM Unit
  | 0, _, _ => divM
  | fuel + 1, idx, length =>
    if length = 0 then ParseM.pure ()
    else do
      let c ← Reader.parse_bounded cr fuel idx length
      let length' ← csubM length c
      kleeneLoop cr fuel idx length'
  termination_by structural fuel idx length => fuel

end

/-- `reader::Record`: the root capture plus the bytes it spans. -/
structure Record where
  capture : SingleCapture
  data : Bytes

/-- `Reader::get_record`: pop the lone remaining capture (which must be a
`Single`) and detach the consumed bytes. -/
def get_recordM : ParseM Record := fun r =>
  match r.captures with
  | (_, .Single c) :: rest =>
    let (data, input') := r.input.split_here
    .ok { capture := c, data := data } { input := input', captures := rest }
  | _ => .fault

/-- First half of `Reader::parse` / `Reader::parse_record`: bracket the root
parse in `init_capture` / `finalize_capture`, dispatching on the root's
declared bound.  An unnamed root is a panic (`unwrap`). -/
def parseRoot (cr : CalcRegex) (fuel : Nat) : ParseM Unit := fun r =>
  match cr.getNode? cr.root with
  | none => .fault
  | some root =>
    match root.name with
    | none => .fault
    | some name =>
      (do
        init_captureM name
        (match root.length_bound with
         | some bound => CalcRegex.parse_bounded cr fuel root bound
         | none => CalcRegex.parse_unbounded cr fuel root)
        finalize_captureM name) r

/-- `Reader::parse`: parse one record and require the input to be exhausted,
otherwise report `TrailingCharacters`. -/
def Reader.parse (cr : CalcRegex) (fuel : Nat) : ParseM Record := do
  parseRoot cr fuel
  let e ← is_emptyM
  if e then get_recordM else throwM .TrailingCharacters

/-- `Reader::parse_record` (used by `parse_many`): same as `parse` but without
the exhaustion requirement. -/
def Reader.parse_record (cr : CalcRegex) (fuel : Nat) : ParseM Record := do
  parseRoot cr fuel
  get_recordM

/-- Split a character list at every occurrence of `sep`
(`str::split` for a single-character pattern). -/
def splitOnChar (sep : Char) : List Char → List (List Char)
  | [] => [[]]
  | c :: rest =>
    let r := splitOnChar sep rest
    if c == sep then [] :: r
    else
      match r with
      | h :: t => (c :: h) :: t
      | [] => [[c]]

/-- Digit run to number, `none` if empty or non-digit
(core of `usize::from_str`). -/
def digitsToNat? (cs : List Char) : Option Nat :=
  if cs.isEmpty then none
  else
    cs.foldl (fun acc c =>
      match acc with
      | none => none
      | some v => if c.isDigit then some (v * 10 + (c.toNat - 48)) else none)
      (some 0)

/-- `usize::from_str` on a 64-bit platform: optional leading `+`, digits only,
and the value must fit in the machine word. -/
def parseUsize (cs : List Char) : Option Nat :=
  let cs := match cs with
    | '+'  :: rest => rest
    | _ => cs
  match digitsToNat? cs with
  | some v => if v < 2 ^ 64 then some v else none
  | none => none

/-- The invalid-name message `missing closing ']'`. -/
def msgMissingBracket : String :=
  "missing closing " ++ tickStr ++ "]" ++ tickStr

/-- The invalid-name message for a failed index parse. -/
def msgNonNumeric : String := "non-numeric index"

/-- Per-fragment bracket handling of `Record::get_single_capture`: strip an
optional `[index]` suffix, reporting malformed syntax. -/
def fragmentIndex (frag : List Char) : Except NameError (List Char × Option Nat) :=
  match frag.findIdx? (· == '[') with
  | none => .ok (frag, none)
  | some pos =>
    if frag.getLast? ≠ some ']' then
      .error (.InvalidCaptureName msgMissingBracket)
    else
      match parseUsize ((frag.drop (pos + 1)).dropLast) with
      | some index => .ok (frag.take pos, some index)
      | none => .error (.InvalidCaptureName msgNonNumeric)

/-- Fragment-by-fragment walk of `Record::get_single_capture`. -/
def resolveFragments : SingleCapture → List String → Except NameError SingleCapture
  | cur, [] => .ok cur
  | cur, fragStr :: rest =>
    match fragmentIndex fragStr.toList with
    | .error e => .error e
    | .ok (baseChars, index?) =>
      let base := String.mk baseChars
      match alGet base cur.children with
      | none => .error (.NoSuchName base)
      | some (.Single c) =>
        match index? with
        | some _ => .error (.MisplacedRepeatAccess base)
        | none => resolveFragments c rest
      | some (.Repeat cs) =>
        match index? with
        | some i =>
          match cs.get? i with
          | none => .error (.OutOfBounds base i cs.length)
          | some c => resolveFragments c rest
        | none => .error (.MisplacedSingleAccess base)

/-- `Record::get_single_capture`, resolving a dotted qualified name from a
given root scope. -/
def get_single_capture (root : SingleCapture) (name : String) :
    Except NameError SingleCapture :=
  resolveFragments root ((splitOnChar '.' name.toList).map String.mk)

/-- Slice `data[start..end]`. -/
def sliceRange (data : Bytes) (s e : Nat) : Bytes := (data.drop s).take (e - s)

/-- `Record::get_capture`. -/
def Record.get_capture (rec : Record) (name : String) : Except NameError Bytes :=
  match get_single_capture rec.capture name with
  | .error e => .error e
  | .ok c => .ok (sliceRange rec.data c.start_pos c.end_pos)

/-- `str::rsplitn(2, '.')` as used by `get_repeat_captures`: split the name at
its last dot into an optional qualifier and the final segment. -/
def rsplitLastDot (cs : List Char) : Option (List Char) × List Char :=
  match (cs.reverse.splitOnP (· == '.')) with
  | [] => (none, cs)
  | [_] => (none, cs)
  | lastRev :: _ =>
    (some (cs.take (cs.length - lastRev.length - 1)), lastRev.reverse)

/-- `Record::get_repeat_captures`. -/
def get_repeat_captures (root : SingleCapture) (name : String) :
    Except NameError (List SingleCapture) :=
  let (init?, lastChars) := rsplitLastDot name.toList
  let last := String.mk lastChars
  let cap : Except NameError SingleCapture :=
    match init? with
    | some initChars => get_single_capture root (String.mk initChars)
    | none => .ok root
  match cap with
  | .error e => .error e
  | .ok c =>
    match alGet last c.children with
    | some (.Repeat caps) => .ok caps
    | some (.Single _) => .error (.MisplacedRepeatAccess last)
    | none => .error (.NoSuchName last)

/-- `Record::get_captures` (the iterator, collected to a list of slices). -/
def Record.get_captures (rec : Record) (name : String) :
    Except NameError (List Bytes) :=
  match get_repeat_captures rec.capture name with
  | .error e => .error e
  | .ok caps => .ok (caps.map (fun c => sliceRange rec.data c.start_pos c.end_pos))

/-- `reader::StreamInput` over a deterministic byte stream: `input` holds the
bytes the underlying reader will still yield, `data` the internally buffered
bytes, `pos` how many of them parsing has consumed. -/
structure StreamInput where
  input : Bytes
  data : Bytes
  pos : Nat
  deriving Repr, DecidableEq

namespace StreamInput

/-- `Input::pos` for streams: the explicitly tracked position, not the buffer
length. -/
def getPos (s : StreamInput) : Nat := s.pos

/-- `Input::bytes` for streams: `data[0..pos]`. -/
def bytes (s : StreamInput) : Bytes := s.data.take s.pos

/-- `Input::read_next` for streams: serve from the buffer if possible,
otherwise pull one byte from the stream. -/
def read_next (s : StreamInput) : Except ParserError StreamInput :=
  if s.data.length > s.pos then .ok { s with pos := s.pos + 1 }
  else
    match s.input with
    | [] => .error .UnexpectedEof
    | b :: rest => .ok { input := rest, data := s.data ++ [b], pos := s.pos + 1 }

/-- `Input::read_n` for streams: serve from the buffer, pulling the missing
remainder from the stream in one `read_exact`. -/
def read_n (s : StreamInput) (n : Nat) : Except ParserError StreamInput :=
  if n ≤ s.data.length - s.pos then .ok { s with pos := s.pos + n }
  else
    let to_read := n - (s.data.length - s.pos)
    if to_read ≤ s.input.length then
      .ok { input := s.input.drop to_read,
            data := s.data ++ s.input.take to_read,
            pos := s.pos + n }
    else .error .UnexpectedEof

/-- `Input::is_empty` for streams: answer from the buffer if a byte is already
waiting, otherwise speculatively read one byte into the buffer without
advancing `pos`. -/
def is_empty (s : StreamInput) : Except ParserError (Bool × StreamInput) :=
  if s.data.length > s.pos then .ok (false, s)
  else
    match s.input with
    | [] => .ok (true, s)
    | b :: rest => .ok (false, { input := rest, data := s.data ++ [b], pos := s.pos })

/-- `Input::split_here` for streams: hand off the consumed prefix, keep the
excess buffer. -/
def split_here (s : StreamInput) : Bytes × StreamInput :=
  (s.data.take s.pos, { input := s.input, data := s.data.drop s.pos, pos := 0 })

/-- The observable content of a stream input: the position, the bytes
delivered so far, and the bytes still to come (buffered or not). -/
def obs (s : StreamInput) : Nat × Bytes × Bytes :=
  (s.pos, s.data.take s.pos, s.data.drop s.pos ++ s.input)

end StreamInput

/-- Well-formed array input: the detach point does not exceed the read
position.  Holds for every reachable reader state. -/
def inpOk (r : Reader) : Prop := r.input.start ≤ r.input.pos

/-- Footprint of one successful parse step on the byte source: the underlying
array and the detach point are untouched and the position only advances. -/
def okStep (r r' : Reader) : Prop :=
  r'.input.input = r.input.input ∧ r'.input.start = r.input.start ∧
    r.input.pos ≤ r'.input.pos

/-- Consumption contract of `Reader.parse_unbounded` at a given budget: a
successful parse advances the position by exactly the returned count. -/
def ConsumeRPU (fuel : Nat) : Prop :=
  ∀ cr idx r c r', inpOk r → Reader.parse_unbounded cr fuel idx r = .ok c r' →
    okStep r r' ∧ r'.input.pos = r.input.pos + c

/-- Consumption contract of `Reader.parse_bounded`: a successful parse
advances the position by the returned count, which respects the bound. -/
def ConsumeRPB (fuel : Nat) : Prop :=
  ∀ cr idx bound r c r', inpOk r →
    Reader.parse_bounded cr fuel idx bound r = .ok c r' →
    okStep r r' ∧ r'.input.pos = r.input.pos + c ∧ c ≤ bound

/-- Consumption contract of `Reader.parse_exact`: a successful parse advances
the position by exactly the requested length. -/
def ConsumeRPE (fuel : Nat) : Prop :=
  ∀ cr idx length r a r', inpOk r →
    Reader.parse_exact cr fuel idx length r = .ok a r' →
    okStep r r' ∧ r'.input.pos = r.input.pos + length

/-- Consumption contract of `CalcRegex.parse_unbounded`. -/
def ConsumeCPU (fuel : Nat) : Prop :=
  ∀ cr node r a r', inpOk r → CalcRegex.parse_unbounded cr fuel node r = .ok a r' →
    okStep r r'

/-- Consumption contract of `CalcRegex.parse_bounded`: at most `bound` bytes
are consumed. -/
def ConsumeCPB (fuel : Nat) : Prop :=
  ∀ cr node bound r a r', inpOk r →
    CalcRegex.parse_bounded cr fuel node bound r = .ok a r' →
    okStep r r' ∧ r'.input.pos ≤ r.input.pos + bound

/-- Consumption contract of `CalcRegex.parse_exact`: exactly `length` bytes
are consumed. -/
def ConsumeCPE (fuel : Nat) : Prop :=
  ∀ cr node length r a r', inpOk r →
    CalcRegex.parse_exact cr fuel node length r = .ok a r' →
    okStep r r' ∧ r'.input.pos = r.input.pos + length

/-- Consumption contract of `unboundedLoop`. -/
def ConsumeUL (fuel : Nat) : Prop :=
  ∀ cr idx n r a r', inpOk r → unboundedLoop cr fuel idx n r = .ok a r' →
    okStep r r'

/-- Consumption contract of `boundedLoop`: the final bound accounts exactly
for the consumed bytes. -/
def ConsumeBL (fuel : Nat) : Prop :=
  ∀ cr idx n bound r b' r', inpOk r → boundedLoop cr fuel idx n bound r = .ok b' r' →
    okStep r r' ∧ b' ≤ bound ∧ r'.input.pos = r.input.pos + (bound - b')

/-- Consumption contract of `kleeneLoop`: the loop runs until the remaining
length is exhausted exactly. -/
def ConsumeKL (fuel : Nat) : Prop :=
  ∀ cr idx length r a r', inpOk r → kleeneLoop cr fuel idx length r = .ok a r' →
    okStep r r' ∧ r'.input.pos = r.input.pos + length

/-- All consumption contracts at a given budget. -/
def ConsumeAll (fuel : Nat) : Prop :=
  ConsumeRPU fuel ∧ ConsumeRPB fuel ∧ ConsumeRPE fuel ∧ ConsumeCPU fuel ∧
    ConsumeCPB fuel ∧ ConsumeCPE fuel ∧ ConsumeUL fuel ∧ ConsumeBL fuel ∧
    ConsumeKL fuel

/-- Whether a parse outcome is a success. -/
def PR.isOk {α : Type} : PR α → Bool
  | .ok _ _ => true
  | _ => false

/-- The abstract effect of `StreamInput.read_next` on the observable content. -/
def obsReadNext : Nat × Bytes × Bytes → Except ParserError (Nat × Bytes × Bytes)
  | (_, _, []) => .error .UnexpectedEof
  | (p, b, x :: rest) => .ok (p + 1, b ++ [x], rest)

/-- The abstract effect of `StreamInput.read_n` on the observable content. -/
def obsReadN (n : Nat) : Nat × Bytes × Bytes → Except ParserError (Nat × Bytes × Bytes) :=
  fun (p, b, rem) =>
    if n ≤ rem.length then .ok (p + n, b ++ rem.take n, rem.drop n)
    else .error .UnexpectedEof

/-- The abstract effect of `StreamInput.is_empty` on the observable content. -/
def obsIsEmpty : Nat × Bytes × Bytes → Except ParserError (Bool × (Nat × Bytes × Bytes)) :=
  fun (p, b, rem) => .ok (rem.isEmpty, (p, b, rem))

/-- The abstract effect of `StreamInput.split_here` on the observable content. -/
def obsSplit : Nat × Bytes × Bytes → Bytes × (Nat × Bytes × Bytes) :=
  fun (_, b, rem) => (b, (0, [], rem))

/-- A matcher accepting exactly four bytes (C1 fixture). -/
def reLen4 : RegexM := ⟨"AAAA", fun b => b.length == 4⟩

/-- A matcher accepting anything, the empty string included. -/
def reAny : RegexM := ⟨"ANY", fun _ => true⟩

/-- A matcher accepting exactly the byte string `"5"`. -/
def re5 : RegexM := ⟨"5", fun b => b == [53]⟩

/-- A matcher accepting exactly the byte string `"foo"`. -/
def reFoo : RegexM := ⟨"foo", fun b => b == [102, 111, 111]⟩

/-- Decode `"5"` to five (C3 fixtures). -/
def dec5 : Bytes → Option Nat := fun b => if b == [53] then some 5 else none

/-- An unnamed four-byte regex leaf (C1 fixture). -/
def nodeC1 : Node := { name := none, length_bound := none, inner := .Regex reLen4 }

/-- A one-node graph around `nodeC1`. -/
def crC1 : CalcRegex := { nodes := [nodeC1], root := 0 }

/-- A fresh reader over four bytes. -/
def rdC1 : Reader := Reader.from_array [1, 2, 3, 4]

/-- `rdC1` after an exact parse of its four bytes. -/
def rdC1done : Reader :=
  { input := { input := [1, 2, 3, 4], start := 0, pos := 4 }, captures := [] }

/-- An unnamed leaf carrying an explicit length bound of six (C2 fixture). -/
def nodeC2 : Node := { name := none, length_bound := some 6, inner := .Regex reAny }

/-- A one-node graph around `nodeC2`. -/
def crC2 : CalcRegex := { nodes := [nodeC2], root := 0 }

/-- A length-counted production whose counter decodes `"5"` to five
(C3 fixture). -/
def nodeC3 : Node :=
  { name := some "net", length_bound := none, inner := .LengthCount 0 none 1 dec5 }

/-- Graph for `nodeC3`: counter leaf, payload leaf, counted root. -/
def crC3 : CalcRegex :=
  { nodes := [
      { name := some "len", length_bound := none, inner := .Regex re5 },
      { name := some "pay", length_bound := none, inner := .Regex reAny },
      nodeC3],
    root := 2 }

/-- Reader over the single byte `"5"` with an enclosing root scope. -/
def rdC3 : Reader :=
  { input := { input := [53], start := 0, pos := 0 },
    captures := [("root", .Single (.mk 0 0 []))] }

/-- An occurrence-counted node whose counter decodes `"5"` to five
repetitions (C3 counterexample fixture). -/
def nodeC3ce : Node :=
  { name := some "seq", length_bound := some 1,
    inner := .OccurrenceCount 0 none 1 dec5 }

/-- Graph for `nodeC3ce`: the target leaf matches the empty string, so each
repetition consumes zero bytes. -/
def crC3ce : CalcRegex :=
  { nodes := [
      { name := some "cnt", length_bound := none, inner := .Regex re5 },
      { name := some "item", length_bound := none, inner := .Regex reAny },
      nodeC3ce],
    root := 2 }

/-- Decode `[10, 20]` to seven (C4 fixture). -/
def decC4 : Bytes → Option Nat := fun b => if b == [10, 20] then some 7 else none

/-- Reader over three bytes with an enclosing root scope (C4 fixture). -/
def rdC4 : Reader :=
  { input := { input := [10, 20, 30], start := 0, pos := 0 },
    captures := [("root", .Single (.mk 0 0 []))] }

/-- A one-node graph matching `"foo"` (C5 fixture). -/
def crC5 : CalcRegex :=
  { nodes := [{ name := some "foo", length_bound := none, inner := .Regex reFoo }],
    root := 0 }

/-- The record produced by parsing `"foo"` with `crC5`. -/
def recC5 : Record := { capture := .mk 0 3 [], data := [102, 111, 111] }

/-- The reader state after a full `crC5` parse of `"foo"`. -/
def rdC5done : Reader :=
  { input := { input := [102, 111, 111], start := 3, pos := 3 }, captures := [] }

/-- The reader state after the root parse of `"foobar"` with `crC5`: the
grammar matched the three-byte prefix and three bytes remain. -/
def rdC5t : Reader :=
  { input := { input := [102, 111, 111, 98, 97, 114], start := 0, pos := 3 },
    captures := [("foo", .Single (.mk 0 3 []))] }

/-- Length-counted grammar schema for C6: a named counter leaf, a named
payload leaf, and a length-counted root, all with arbitrary matchers and
decoder. -/
def crLC (mr mt : Bytes → Bool) (f : Bytes → Option Nat) : CalcRegex :=
  { nodes := [
      { name := some "len", length_bound := none, inner := .Regex ⟨"R", mr⟩ },
      { name := some "pay", length_bound := none, inner := .Regex ⟨"T", mt⟩ },
      { name := some "net", length_bound := none, inner := .LengthCount 0 none 1 f }],
    root := 2 }

/-- Occurrence-counted grammar schema for C6: a named counter leaf, a named
item leaf, and an occurrence-counted root. -/
def crOC (mr mt : Bytes → Bool) (f : Bytes → Option Nat) : CalcRegex :=
  { nodes := [
      { name := some "cnt", length_bound := none, inner := .Regex ⟨"R", mr⟩ },
      { name := some "item", length_bound := none, inner := .Regex ⟨"T", mt⟩ },
      { name := some "seq", length_bound := none, inner := .OccurrenceCount 0 none 1 f }],
    root := 2 }

/-- Counter matcher for the C6 witnesses: exactly the byte `"3"`. -/
def mr3 : Bytes → Bool := fun b => b == [51]

/-- Payload matcher for the C6 length-count witness: anything. -/
def mtAny : Bytes → Bool := fun _ => true

/-- Decoder for the C6 length-count witness: `"3"` to three. -/
def dec3 : Bytes → Option Nat := fun b => if b == [51] then some 3 else none

/-- Counter matcher for the C6 occurrence-count witness: exactly `"2"`. -/
def mr2 : Bytes → Bool := fun b => b == [50]

/-- Item matcher for the C6 occurrence-count witness: any single byte. -/
def mt1 : Bytes → Bool := fun b => b.length == 1

/-- Decoder for the C6 occurrence-count witness: `"2"` to two. -/
def dec2 : Bytes → Option Nat := fun b => if b == [50] then some 2 else none

/-- The counter node of `crLC`. -/
def ndLen (mr : Bytes → Bool) : Node :=
  { name := some "len", length_bound := none, inner := .Regex ⟨"R", mr⟩ }

/-- The payload node of `crLC`. -/
def ndPay (mt : Bytes → Bool) : Node :=
  { name := some "pay", length_bound := none, inner := .Regex ⟨"T", mt⟩ }

/-- The root node of `crLC`. -/
def ndNet (f : Bytes → Option Nat) : Node :=
  { name := some "net", length_bound := none, inner := .LengthCount 0 none 1 f }

/-- The counter node of `crOC`. -/
def ndCnt (mr : Bytes → Bool) : Node :=
  { name := some "cnt", length_bound := none, inner := .Regex ⟨"R", mr⟩ }

/-- The item node of `crOC`. -/
def ndItem (mt : Bytes → Bool) : Node :=
  { name := some "item", length_bound := none, inner := .Regex ⟨"T", mt⟩ }

/-- The root node of `crOC`. -/
def ndSeq (f : Bytes → Option Nat) : Node :=
  { name := some "seq", length_bound := none, inner := .OccurrenceCount 0 none 1 f }

/-- The capture children recorded by a successful `crLC` parse: counter span
`[0, p)`, payload span `[p, p + count)`, each under both its node name and
its synthetic alias. -/
def chLC (p count : Nat) : List (String × Capture) :=
  [("len", .Single (.mk 0 p [])),
   ("$count", .Single (.mk 0 p [])),
   ("pay", .Single (.mk p (p + count) [])),
   ("$value", .Single (.mk p (p + count) []))]

/-- The record produced by the C6 length-count witness parse (`"3foo"`). -/
def recC6lc : Record := { capture := .mk 0 4 (chLC 1 3), data := [51, 102, 111, 111] }

/-- The record produced by the C6 occurrence-count witness parse (`"2ab"`). -/
def recC6oc : Record :=
  { capture := .mk 0 3
      [("cnt", .Single (.mk 0 1 [])), ("$count", .Single (.mk 0 1 [])),
       ("item", .Repeat [.mk 1 2 [], .mk 2 3 []]),
       ("$value", .Single (.mk 1 3 []))],
    data := [50, 97, 98] }

/-- Capture tree with a one-element repeat `x` and a single `y`
(C7 fixture). -/
def capC7 : SingleCapture :=
  .mk 0 1 [("x", .Repeat [.mk 0 1 []]), ("y", .Single (.mk 0 1 []))]

/-- A two-node graph with named nodes `a` and `b` (C8 fixture). -/
def crC8 : CalcRegex :=
  { nodes := [
      { name := some "a", length_bound := none, inner := .Regex reAny },
      { name := some "b", length_bound := some 3, inner := .Regex reAny }],
    root := 0 }

/-- A stream input with one byte buffered beyond the position (C9 fixture). -/
def s9a : StreamInput := { input := [5, 6], data := [1, 2, 3], pos := 2 }

/-- A stream input observably equal to `s9a` but with nothing buffered. -/
def s9b : StreamInput := { input := [3, 5, 6], data := [1, 2], pos := 2 }

/-- An exact-mode repetition with count zero (C10 fixture). -/
def nodeRep0 : Node := { name := none, length_bound := none, inner := .Repeat 0 0 }

/-- Graph containing `nodeRep0`. -/
def crRep0 : CalcRegex :=
  { nodes := [
      { name := none, length_bound := none, inner := .Regex reAny },
      nodeRep0],
    root := 1 }

/-- Decode `"0"` to zero (C10 occurrence fixture). -/
def dec0 : Bytes → Option Nat := fun b => if b == [48] then some 0 else none

/-- A matcher accepting exactly the byte `"0"`. -/
def re0 : RegexM := ⟨"0", fun b => b == [48]⟩

/-- An occurrence-counted node whose counter decodes to zero (C10 fixture). -/
def nodeOC0 : Node :=
  { name := some "seq", length_bound := none, inner := .OccurrenceCount 0 none 1 dec0 }

/-- Graph containing `nodeOC0`. -/
def crOC0 : CalcRegex :=
  { nodes := [
      { name := some "cnt", length_bound := none, inner := .Regex re0 },
      { name := some "item", length_bound := none, inner := .Regex reAny },
      nodeOC0],
    root := 2 }

/-- Reader over the single byte `"0"` with an enclosing root scope. -/
def rdC10 : Reader :=
  { input := { input := [48], start := 0, pos := 0 },
    captures := [("root", .Single (.mk 0 0 []))] }

/-- `rdC4` after the count sub-parse of the C4 witness (two bytes read inside
an open `$count` scope). -/
def rdC4a : Reader :=
  { input := { input := [10, 20, 30], start := 0, pos := 2 },
    captures := [("$count", .Single (.mk 0 0 [])), ("root", .Single (.mk 0 0 []))] }

/-- `rdC4a` after closing the `$count` capture. -/
def rdC4b : Reader :=
  { input := { input := [10, 20, 30], start := 0, pos := 2 },
    captures := [("root", .Single (.mk 0 0 [("$count", .Single (.mk 0 2 []))]))] }

/-- `crC8` after setting node `b`'s bound to seven. -/
def crC8b : CalcRegex :=
  { nodes := [
      { name := some "a", length_bound := none, inner := .Regex reAny },
      { name := some "b", length_bound := some 7, inner := .Regex reAny }],
    root := 0 }

@[simp] theorem bindDef {α β} : (Bind.bind : ParseM α → (α → ParseM β) → ParseM β) = ParseM.bind := rfl

@[simp] theorem pureDef {α} : (Pure.pure : α → ParseM α) = ParseM.pure := rfl

@[simp] theorem pure_apply {α} (a : α) (r : Reader) : ParseM.pure a r = .ok a r := rfl

@[simp] theorem bind_pure_left {α β} (a : α) (f : α → ParseM β) :
    ParseM.bind (ParseM.pure a) f = f a := rfl

theorem bind_ok_elim {α β} {m : ParseM α} {f : α → ParseM β} {r : Reader}
    {b : β} {r₂ : Reader} (h : ParseM.bind m f r = .ok b r₂) :
    ∃ a r₁, m r = .ok a r₁ ∧ f a r₁ = .ok b r₂ := by
  unfold ParseM.bind at h
  split at h
  · next a r₁ hm => exact ⟨a, r₁, hm, h⟩
  · exact absurd h (by simp)
  · exact absurd h (by simp)
  · exact absurd h (by simp)

theorem bind_ok_intro {α β} {m : ParseM α} {f : α → ParseM β} {r r₁ : Reader}
    {a : α} (h₁ : m r = .ok a r₁) : ParseM.bind m f r = f a r₁ := by
  unfold ParseM.bind
  rw [h₁]

theorem pure_ok_elim {α} {a b : α} {r r' : Reader}
    (h : ParseM.pure a r = .ok b r') : a = b ∧ r = r' := by
  unfold ParseM.pure at h
  cases h
  exact ⟨rfl, rfl⟩

theorem csub_ok_elim {a b v : Nat} {r r' : Reader}
    (h : csubM a b r = .ok v r') : b ≤ a ∧ v = a - b ∧ r' = r := by
  unfold csubM at h
  split at h
  · next hle =>
    obtain ⟨h₁, h₂⟩ := pure_ok_elim h
    exact ⟨hle, h₁.symm, h₂.symm⟩
  · exact absurd h (by simp [faultM])

theorem getPos_ok_elim {v : Nat} {r r' : Reader}
    (h : getPosM r = .ok v r') : v = r.pos ∧ r' = r := by
  unfold getPosM at h
  cases h
  exact ⟨rfl, rfl⟩

@[simp] theorem getPosM_apply (r : Reader) : getPosM r = .ok r.pos r := rfl

@[simp] theorem startCapF_input (r : Reader) (name : String) :
    (r.startCapF name).input = r.input := rfl

@[simp] theorem start_captureM_apply (name : String) (r : Reader) :
    start_captureM name r = .ok () (r.startCapF name) := rfl

theorem startName_ok_elim {o : Option String} {r r' : Reader} {a : Unit}
    (h : startNameM o r = .ok a r') : r'.input = r.input := by
  cases o with
  | none =>
    obtain ⟨-, h₂⟩ := pure_ok_elim h
    rw [← h₂]
  | some name =>
    unfold startNameM start_captureM at h
    cases h
    rfl

theorem finish_captureM_ok_elim {name : String} {r r' : Reader} {a : Unit}
    (h : finish_captureM name r = .ok a r') : r'.input = r.input := by
  unfold finish_captureM at h
  split at h
  · split at h
    · split at h
      · cases h; rfl
      · exact absurd h (by simp)
    · exact absurd h (by simp)
  · exact absurd h (by simp)

theorem finishName_ok_elim {o : Option String} {r r' : Reader} {a : Unit}
    (h : finishNameM o r = .ok a r') : r'.input = r.input := by
  cases o with
  | none =>
    obtain ⟨-, h₂⟩ := pure_ok_elim h
    rw [← h₂]
  | some name => exact finish_captureM_ok_elim h

theorem start_repeatM_ok_elim {r r' : Reader} {a : Unit}
    (h : start_repeatM r = .ok a r') : r'.input = r.input := by
  unfold start_repeatM at h
  cases h
  rfl

theorem finish_repeatM_ok_elim {r r' : Reader} {a : Unit}
    (h : finish_repeatM r = .ok a r') : r'.input = r.input := by
  unfold finish_repeatM at h
  split at h
  · split at h
    · cases h; rfl
    · exact absurd h (by simp)
  · exact absurd h (by simp)

theorem init_captureM_ok_elim {name : String} {r r' : Reader} {a : Unit}
    (h : init_captureM name r = .ok a r') : r'.input = r.input := by
  unfold init_captureM at h
  cases h
  rfl

theorem finalize_captureM_ok_elim {name : String} {r r' : Reader} {a : Unit}
    (h : finalize_captureM name r = .ok a r') : r'.input = r.input := by
  unfold finalize_captureM at h
  split at h
  · split at h
    · cases h; rfl
    · exact absurd h (by simp)
  · exact absurd h (by simp)

theorem getRange_ok_elim {range : Nat × Nat} {v : Bytes} {r r' : Reader}
    (h : getRangeM range r = .ok v r') : v = r.get_range range ∧ r' = r := by
  unfold getRangeM at h
  cases h
  exact ⟨rfl, rfl⟩

theorem okStep_rfl (r : Reader) : okStep r r := ⟨rfl, rfl, le_refl _⟩

theorem okStep_trans {r₁ r₂ r₃ : Reader} (h₁ : okStep r₁ r₂) (h₂ : okStep r₂ r₃) :
    okStep r₁ r₃ := by
  obtain ⟨a₁, b₁, c₁⟩ := h₁
  obtain ⟨a₂, b₂, c₂⟩ := h₂
  exact ⟨a₂.trans a₁, b₂.trans b₁, c₁.trans c₂⟩

theorem inpOk_of_okStep {r r' : Reader} (h : inpOk r) (hs : okStep r r') : inpOk r' := by
  obtain ⟨-, b, c⟩ := hs
  unfold inpOk at *
  omega

theorem okStep_of_input_eq {r r' : Reader} (h : r'.input = r.input) : okStep r r' := by
  rw [okStep, h]
  exact ⟨rfl, rfl, le_refl _⟩

theorem read_nextM_ok_elim {r r' : Reader} {a : Unit}
    (h : read_nextM r = .ok a r') :
    r'.input.input = r.input.input ∧ r'.input.start = r.input.start ∧
      r'.input.pos = r.input.pos + 1 ∧ r'.captures = r.captures := by
  unfold read_nextM liftInput ArrayInput.read_next at h
  split at h
  · next i heq =>
    split at heq
    · exact absurd heq (by simp)
    · cases heq
      cases h
      exact ⟨rfl, rfl, rfl, rfl⟩
  · exact absurd h (by simp)

theorem read_nM_ok_elim {n : Nat} {r r' : Reader} {a : Unit}
    (h : read_nM n r = .ok a r') :
    r'.input.input = r.input.input ∧ r'.input.start = r.input.start ∧
      r'.input.pos = r.input.pos + n ∧ r'.captures = r.captures ∧
      r.input.pos + n ≤ r.input.input.length := by
  unfold read_nM liftInput ArrayInput.read_n at h
  split at h
  · next i heq =>
    simp only at heq
    split at heq
    · exact absurd heq (by simp)
    · next hle =>
      cases heq
      cases h
      exact ⟨rfl, rfl, rfl, rfl, by omega⟩
  · exact absurd h (by simp)

theorem getBytesM_apply (r : Reader) : getBytesM r = .ok r.bytesR r := rfl

theorem mruLoop_ok_elim {re : RegexM} {start_pos : Nat} {fuel : Nat}
    {r r' : Reader} {a : Unit} (h : mruLoop re start_pos fuel r = .ok a r') :
    r'.input.input = r.input.input ∧ r'.input.start = r.input.start ∧
      r.input.pos ≤ r'.input.pos ∧ r'.captures = r.captures := by
  induction fuel generalizing r with
  | zero => exact absurd h (by simp [mruLoop, divM])
  | succ n ih =>
    unfold mruLoop at h
    split at h
    · cases h; exact ⟨rfl, rfl, le_refl _, rfl⟩
    · obtain ⟨u, r₁, h₁, h₂⟩ := bind_ok_elim h
      obtain ⟨e₁, e₂, e₃, e₄⟩ := read_nextM_ok_elim h₁
      obtain ⟨f₁, f₂, f₃, f₄⟩ := ih h₂
      refine ⟨f₁.trans e₁, f₂.trans e₂, ?_, f₄.trans e₄⟩
      omega

theorem match_regex_unbounded_ok_elim {re : RegexM} {fuel : Nat}
    {r r' : Reader} {a : Unit} (h : match_regex_unbounded re fuel r = .ok a r') :
    r'.input.input = r.input.input ∧ r'.input.start = r.input.start ∧
      r.input.pos ≤ r'.input.pos ∧ r'.captures = r.captures := by
  unfold match_regex_unbounded at h
  simp only [bindDef] at h
  obtain ⟨v, r₁, h₁, h₂⟩ := bind_ok_elim h
  obtain ⟨-, e⟩ := getPos_ok_elim h₁
  subst e
  exact mruLoop_ok_elim h₂

theorem mrbLoop_ok_elim {re : RegexM} {start_pos : Nat} {k : Nat}
    {r r' : Reader} {a : Unit} (h : mrbLoop re start_pos k r = .ok a r') :
    r'.input.input = r.input.input ∧ r'.input.start = r.input.start ∧
      r.input.pos ≤ r'.input.pos ∧ r'.input.pos ≤ r.input.pos + k ∧
      r'.captures = r.captures := by
  induction k generalizing r with
  | zero => exact absurd h (by simp [mrbLoop])
  | succ n ih =>
    unfold mrbLoop at h
    simp only [bindDef] at h
    obtain ⟨u, r₁, h₁, h₂⟩ := bind_ok_elim h
    obtain ⟨e₁, e₂, e₃, e₄⟩ := read_nextM_ok_elim h₁
    obtain ⟨b, r₂, hb, h₃⟩ := bind_ok_elim h₂
    have hb' : r₂ = r₁ := by
      cases hb
      rfl
    subst hb'
    split at h₃
    · obtain ⟨-, e⟩ := pure_ok_elim h₃
      subst e
      exact ⟨e₁, e₂, by omega, by omega, e₄⟩
    · obtain ⟨f₁, f₂, f₃, f₄, f₅⟩ := ih h₃
      exact ⟨f₁.trans e₁, f₂.trans e₂, by omega, by omega, f₅.trans e₄⟩

theorem match_regex_bounded_ok_elim {re : RegexM} {bound : Nat}
    {r r' : Reader} {a : Unit} (h : match_regex_bounded re bound r = .ok a r') :
    r'.input.input = r.input.input ∧ r'.input.start = r.input.start ∧
      r.input.pos ≤ r'.input.pos ∧ r'.input.pos ≤ r.input.pos + bound ∧
      r'.captures = r.captures := by
  unfold match_regex_bounded at h
  split at h
  · cases h
    exact ⟨rfl, rfl, le_refl _, by omega, rfl⟩
  · simp only [bindDef] at h
    obtain ⟨v, r₁, h₁, h₂⟩ := bind_ok_elim h
    obtain ⟨-, e⟩ := getPos_ok_elim h₁
    subst e
    exact mrbLoop_ok_elim h₂

theorem match_regex_exact_ok_elim {re : RegexM} {length : Nat}
    {r r' : Reader} {a : Unit} (h : match_regex_exact re length r = .ok a r') :
    r'.input.input = r.input.input ∧ r'.input.start = r.input.start ∧
      r'.input.pos = r.input.pos + length ∧ r'.captures = r.captures ∧
      r.input.pos + length ≤ r.input.input.length := by
  unfold match_regex_exact at h
  simp only [bindDef] at h
  obtain ⟨v, r₁, h₁, h₂⟩ := bind_ok_elim h
  obtain ⟨-, e⟩ := getPos_ok_elim h₁
  subst e
  obtain ⟨u, r₂, h₃, h₄⟩ := bind_ok_elim h₂
  obtain ⟨e₁, e₂, e₃, e₄, e₅⟩ := read_nM_ok_elim h₃
  obtain ⟨b, r₃, hb, h₅⟩ := bind_ok_elim h₄
  have hb' : r₃ = r₂ := by
    cases hb
    rfl
  subst hb'
  split at h₅
  · obtain ⟨-, e⟩ := pure_ok_elim h₅
    subst e
    exact ⟨e₁, e₂, e₃, e₄, e₅⟩
  · exact absurd h₅ (by simp [throwM])

@[simp] theorem getRangeM_apply (range : Nat × Nat) (r : Reader) :
    getRangeM range r = .ok (r.get_range range) r := rfl

theorem read_count_ok_elim {α} {f : Bytes → Option Nat} {p : ParseM α}
    {r : Reader} {ac : α × Nat} {r' : Reader}
    (h : read_count f p r = .ok ac r') :
    ∃ r₁, p (r.startCapF "$count") = .ok ac.1 r₁ ∧ r'.input = r₁.input := by
  unfold read_count at h
  simp only [bindDef] at h
  rw [bind_ok_intro (start_captureM_apply "$count" r)] at h
  rw [bind_ok_intro (getPosM_apply (r.startCapF "$count"))] at h
  obtain ⟨a, r₁, h₁, h⟩ := bind_ok_elim h
  obtain ⟨u₂, r₂, h₂, h⟩ := bind_ok_elim h
  have e₂ := finish_captureM_ok_elim h₂
  rw [bind_ok_intro (getPosM_apply r₂)] at h
  rw [bind_ok_intro (getRangeM_apply _ r₂)] at h
  rcases hf : f (r₂.get_range (Reader.pos (r.startCapF "$count"), Reader.pos r₂))
    with - | count
  · simp only [hf] at h
    exact absurd h (by simp [throwM])
  · simp only [hf] at h
    obtain ⟨ee, e⟩ := pure_ok_elim h
    subst e
    refine ⟨r₁, ?_, e₂⟩
    rw [← ee]
    exact h₁

theorem consumeUL_succ {fuel : Nat} (ih : ConsumeAll fuel) : ConsumeUL (fuel + 1) := by
  obtain ⟨ihRPU, -, -, -, -, -, ihUL, -, -⟩ := ih
  intro cr idx n r a r' hok h
  cases n with
  | zero =>
    simp only [unboundedLoop] at h
    obtain ⟨-, e⟩ := pure_ok_elim h
    subst e
    exact okStep_rfl r
  | succ n =>
    simp only [unboundedLoop, bindDef] at h
    obtain ⟨c, r₁, h₁, h₂⟩ := bind_ok_elim h
    obtain ⟨s₁, -⟩ := ihRPU cr idx r c r₁ hok h₁
    have s₂ := ihUL cr idx n r₁ a r' (inpOk_of_okStep hok s₁) h₂
    exact okStep_trans s₁ s₂

theorem consumeBL_succ {fuel : Nat} (ih : ConsumeAll fuel) : ConsumeBL (fuel + 1) := by
  obtain ⟨-, ihRPB, -, -, -, -, -, ihBL, -⟩ := ih
  intro cr idx n bound r b' r' hok h
  cases n with
  | zero =>
    simp only [boundedLoop] at h
    obtain ⟨e₁, e₂⟩ := pure_ok_elim h
    subst e₂
    exact ⟨okStep_rfl r, by omega, by omega⟩
  | succ n =>
    simp only [boundedLoop, bindDef] at h
    obtain ⟨c, r₁, h₁, h₂⟩ := bind_ok_elim h
    obtain ⟨s₁, p₁, le₁⟩ := ihRPB cr idx bound r c r₁ hok h₁
    obtain ⟨v, r₂, hc, h₃⟩ := bind_ok_elim h₂
    obtain ⟨-, ev, e₂⟩ := csub_ok_elim hc
    subst e₂
    subst ev
    obtain ⟨s₂, le₂, p₂⟩ := ihBL cr idx n (bound - c) r₂ b' r'
      (inpOk_of_okStep hok s₁) h₃
    refine ⟨okStep_trans s₁ s₂, by omega, by omega⟩

theorem consumeKL_succ {fuel : Nat} (ih : ConsumeAll fuel) : ConsumeKL (fuel + 1) := by
  obtain ⟨-, ihRPB, -, -, -, -, -, -, ihKL⟩ := ih
  intro cr idx length r a r' hok h
  simp only [kleeneLoop] at h
  by_cases hz : length = 0
  · rw [if_pos hz] at h
    obtain ⟨-, e⟩ := pure_ok_elim h
    subst e
    exact ⟨okStep_rfl r, by omega⟩
  · rw [if_neg hz] at h
    simp only [bindDef] at h
    obtain ⟨c, r₁, h₁, h₂⟩ := bind_ok_elim h
    obtain ⟨s₁, p₁, le₁⟩ := ihRPB cr idx length r c r₁ hok h₁
    obtain ⟨v, r₂, hc, h₃⟩ := bind_ok_elim h₂
    obtain ⟨-, ev, e₂⟩ := csub_ok_elim hc
    subst e₂
    subst ev
    obtain ⟨s₂, p₂⟩ := ihKL cr idx (length - c) r₂ a r'
      (inpOk_of_okStep hok s₁) h₃
    exact ⟨okStep_trans s₁ s₂, by omega⟩

theorem consumeRPU_succ {fuel : Nat} (ih : ConsumeAll fuel) : ConsumeRPU (fuel + 1) := by
  obtain ⟨-, -, -, ihCPU, ihCPB, -, -, -, -⟩ := ih
  intro cr idx r c r' hok h
  rcases hnode : cr.getNode? idx with - | node
  · simp [Reader.parse_unbounded, hnode, faultM] at h
  · simp only [Reader.parse_unbounded, hnode, bindDef] at h
    rw [bind_ok_intro (getPosM_apply r)] at h
    obtain ⟨u₁, r₁, h₁, h⟩ := bind_ok_elim h
    have e₁ := startName_ok_elim h₁
    have s₁ : okStep r r₁ := okStep_of_input_eq e₁
    obtain ⟨u₂, r₂, h₂, h⟩ := bind_ok_elim h
    have hstep₂ : okStep r₁ r₂ := by
      cases hlb : node.length_bound with
      | some bound =>
        simp only [hlb] at h₂
        obtain ⟨s, -⟩ := ihCPB cr node bound r₁ u₂ r₂ (inpOk_of_okStep hok s₁) h₂
        exact s
      | none =>
        simp only [hlb] at h₂
        exact ihCPU cr node r₁ u₂ r₂ (inpOk_of_okStep hok s₁) h₂
    obtain ⟨u₃, r₃, h₃, h⟩ := bind_ok_elim h
    have e₃ := finishName_ok_elim h₃
    have s₃ : okStep r₂ r₃ := okStep_of_input_eq e₃
    rw [bind_ok_intro (getPosM_apply r₃)] at h
    obtain ⟨ec, e₅⟩ := pure_ok_elim h
    subst e₅
    have sAll : okStep r r₃ := okStep_trans s₁ (okStep_trans hstep₂ s₃)
    refine ⟨sAll, ?_⟩
    obtain ⟨a₁, a₂, a₃⟩ := sAll
    simp only [Reader.pos, ArrayInput.getPos] at ec
    unfold inpOk at hok
    omega

theorem consumeRPB_succ {fuel : Nat} (ih : ConsumeAll fuel) : ConsumeRPB (fuel + 1) := by
  obtain ⟨-, -, -, -, ihCPB, -, -, -, -⟩ := ih
  intro cr idx bound r c r' hok h
  rcases hnode : cr.getNode? idx with - | node
  · simp [Reader.parse_bounded, hnode, faultM] at h
  · simp only [Reader.parse_bounded, hnode, bindDef] at h
    rw [bind_ok_intro (getPosM_apply r)] at h
    obtain ⟨u₁, r₁, h₁, h⟩ := bind_ok_elim h
    have e₁ := startName_ok_elim h₁
    have s₁ : okStep r r₁ := okStep_of_input_eq e₁
    obtain ⟨u₂, r₂, h₂, h⟩ := bind_ok_elim h
    have hbound : (match node.length_bound with
        | some n => min bound n
        | none => bound) ≤ bound := by
      cases node.length_bound <;> simp
    obtain ⟨s₂, hle₂⟩ := ihCPB cr node _ r₁ u₂ r₂ (inpOk_of_okStep hok s₁) h₂
    obtain ⟨u₃, r₃, h₃, h⟩ := bind_ok_elim h
    have e₃ := finishName_ok_elim h₃
    have s₃ : okStep r₂ r₃ := okStep_of_input_eq e₃
    rw [bind_ok_intro (getPosM_apply r₃)] at h
    obtain ⟨ec, e₅⟩ := pure_ok_elim h
    subst e₅
    have sAll : okStep r r₃ := okStep_trans s₁ (okStep_trans s₂ s₃)
    have e₁p : r₁.input.pos = r.input.pos := by rw [e₁]
    have e₁s : r₁.input.start = r.input.start := by rw [e₁]
    have e₃p : r₃.input.pos = r₂.input.pos := by rw [e₃]
    have e₃s : r₃.input.start = r₂.input.start := by rw [e₃]
    refine ⟨sAll, ?_, ?_⟩
    · obtain ⟨a₁, a₂, a₃⟩ := sAll
      simp only [Reader.pos, ArrayInput.getPos] at ec
      unfold inpOk at hok
      omega
    · obtain ⟨a₁, a₂, a₃⟩ := sAll
      obtain ⟨b₁, b₂, b₃⟩ := s₂
      simp only [Reader.pos, ArrayInput.getPos] at ec
      unfold inpOk at hok
      omega

theorem consumeRPE_succ {fuel : Nat} (ih : ConsumeAll fuel) : ConsumeRPE (fuel + 1) := by
  obtain ⟨-, -, -, -, -, ihCPE, -, -, -⟩ := ih
  intro cr idx length r a r' hok h
  rcases hnode : cr.getNode? idx with - | node
  · simp [Reader.parse_exact, hnode, faultM] at h
  · simp only [Reader.parse_exact, hnode] at h
    have main : ∀ (hh : (do
        startNameM node.name
        CalcRegex.parse_exact cr fuel node length
        finishNameM node.name : ParseM Unit) r = .ok a r'),
        okStep r r' ∧ r'.input.pos = r.input.pos + length := by
      intro hh
      simp only [bindDef] at hh
      obtain ⟨u₁, r₁, h₁, hh⟩ := bind_ok_elim hh
      have e₁ := startName_ok_elim h₁
      have s₁ : okStep r r₁ := okStep_of_input_eq e₁
      obtain ⟨u₂, r₂, h₂, hh⟩ := bind_ok_elim hh
      obtain ⟨s₂, p₂⟩ := ihCPE cr node length r₁ u₂ r₂ (inpOk_of_okStep hok s₁) h₂
      have e₃ := finishName_ok_elim hh
      have s₃ : okStep r₂ r' := okStep_of_input_eq e₃
      refine ⟨okStep_trans s₁ (okStep_trans s₂ s₃), ?_⟩
      rw [e₃, p₂, e₁]
    rcases hlb : node.length_bound with - | lb
    · simp only [hlb] at h
      exact main h
    · simp only [hlb] at h
      by_cases hc : lb < length
      · rw [if_pos hc] at h
        exact absurd h (by simp [throwM])
      · rw [if_neg hc] at h
        exact main h

theorem okStep_read_count {α} {f : Bytes → Option Nat} {p : ParseM α}
    {r : Reader} {ac : α × Nat} {r' : Reader}
    (h : read_count f p r = .ok ac r')
    (hp : ∀ a r₁, p (r.startCapF "$count") = .ok a r₁ →
      okStep (r.startCapF "$count") r₁) :
    okStep r r' := by
  obtain ⟨r₁, hcl, e⟩ := read_count_ok_elim h
  have s := hp _ _ hcl
  obtain ⟨a₁, a₂, a₃⟩ := s
  simp only [startCapF_input] at a₁ a₂ a₃
  rw [okStep, e]
  exact ⟨a₁, a₂, a₃⟩

theorem consumeCPU_succ {fuel : Nat} (ih : ConsumeAll fuel) : ConsumeCPU (fuel + 1) := by
  obtain ⟨ihRPU, ihRPB, ihRPE, -, -, -, ihUL, ihBL, ihKL⟩ := ih
  intro cr node r a r' hok h
  obtain ⟨nname, nlb, ninner⟩ := node
  cases ninner with
  | Regex re =>
    simp only [CalcRegex.parse_unbounded] at h
    obtain ⟨e₁, e₂, e₃, -⟩ := match_regex_unbounded_ok_elim h
    exact ⟨e₁, e₂, e₃⟩
  | CalcRegex idx =>
    simp only [CalcRegex.parse_unbounded, bindDef] at h
    obtain ⟨c, r₁, h₁, h₂⟩ := bind_ok_elim h
    obtain ⟨s₁, -⟩ := ihRPU cr idx r c r₁ hok h₁
    obtain ⟨-, e⟩ := pure_ok_elim h₂
    subst e
    exact s₁
  | Concat rr ss =>
    simp only [CalcRegex.parse_unbounded, bindDef] at h
    obtain ⟨c₁, r₁, h₁, h⟩ := bind_ok_elim h
    obtain ⟨s₁, -⟩ := ihRPU cr rr r c₁ r₁ hok h₁
    obtain ⟨c₂, r₂, h₂, h⟩ := bind_ok_elim h
    obtain ⟨s₂, -⟩ := ihRPU cr ss r₁ c₂ r₂ (inpOk_of_okStep hok s₁) h₂
    obtain ⟨-, e⟩ := pure_ok_elim h
    subst e
    exact okStep_trans s₁ s₂
  | Repeat idx n =>
    simp only [CalcRegex.parse_unbounded, bindDef] at h
    obtain ⟨u₁, r₁, h₁, h⟩ := bind_ok_elim h
    have s₁ := okStep_of_input_eq (start_repeatM_ok_elim h₁)
    obtain ⟨u₂, r₂, h₂, h⟩ := bind_ok_elim h
    have s₂ := ihUL cr idx n r₁ u₂ r₂ (inpOk_of_okStep hok s₁) h₂
    exact okStep_trans s₁ (okStep_trans s₂ (okStep_of_input_eq (finish_repeatM_ok_elim h)))
  | KleeneStar idx =>
    simp [CalcRegex.parse_unbounded, faultM] at h
  | LengthCount rr ss tt ff =>
    simp only [CalcRegex.parse_unbounded, bindDef] at h
    obtain ⟨ac, r₁, h₁, h⟩ := bind_ok_elim h
    obtain ⟨a1, count⟩ := ac
    have s₁ : okStep r r₁ := by
      refine okStep_read_count h₁ ?_
      intro aa rr1 hcl
      simp only [bindDef] at hcl
      obtain ⟨c, rA, hA, hB⟩ := bind_ok_elim hcl
      obtain ⟨sA, -⟩ := ihRPU cr rr (r.startCapF "$count") c rA hok hA
      obtain ⟨-, e⟩ := pure_ok_elim hB
      subst e
      exact sA
    obtain ⟨u₂, r₂, h₂, h⟩ := bind_ok_elim h
    have s₂ : okStep r₁ r₂ := by
      rcases hs : ss with - | si
      · simp only [hs] at h₂
        obtain ⟨-, e⟩ := pure_ok_elim h₂
        subst e
        exact okStep_rfl _
      · simp only [hs, bindDef] at h₂
        obtain ⟨c, rA, hA, hB⟩ := bind_ok_elim h₂
        obtain ⟨sA, -⟩ := ihRPU cr si r₁ c rA (inpOk_of_okStep hok s₁) hA
        obtain ⟨-, e⟩ := pure_ok_elim hB
        subst e
        exact sA
    obtain ⟨u₃, r₃, h₃, h⟩ := bind_ok_elim h
    have e₃ : r₃ = r₂.startCapF "$value" := by
      cases h₃
      rfl
    subst e₃
    have s₃ : okStep r₂ (r₂.startCapF "$value") := okStep_of_input_eq rfl
    obtain ⟨u₄, r₄, h₄, h⟩ := bind_ok_elim h
    obtain ⟨s₄, -⟩ := ihRPE cr tt count _ u₄ r₄
      (inpOk_of_okStep hok (okStep_trans s₁ (okStep_trans s₂ s₃))) h₄
    have s₅ := okStep_of_input_eq (finish_captureM_ok_elim h)
    exact okStep_trans s₁ (okStep_trans s₂ (okStep_trans s₃ (okStep_trans s₄ s₅)))
  | OccurrenceCount rr ss tt ff =>
    simp only [CalcRegex.parse_unbounded, bindDef] at h
    obtain ⟨ac, r₁, h₁, h⟩ := bind_ok_elim h
    obtain ⟨a1, count⟩ := ac
    have s₁ : okStep r r₁ := by
      refine okStep_read_count h₁ ?_
      intro aa rr1 hcl
      simp only [bindDef] at hcl
      obtain ⟨c, rA, hA, hB⟩ := bind_ok_elim hcl
      obtain ⟨sA, -⟩ := ihRPU cr rr (r.startCapF "$count") c rA hok hA
      obtain ⟨-, e⟩ := pure_ok_elim hB
      subst e
      exact sA
    obtain ⟨u₂, r₂, h₂, h⟩ := bind_ok_elim h
    have s₂ : okStep r₁ r₂ := by
      rcases hs : ss with - | si
      · simp only [hs] at h₂
        obtain ⟨-, e⟩ := pure_ok_elim h₂
        subst e
        exact okStep_rfl _
      · simp only [hs, bindDef] at h₂
        obtain ⟨c, rA, hA, hB⟩ := bind_ok_elim h₂
        obtain ⟨sA, -⟩ := ihRPU cr si r₁ c rA (inpOk_of_okStep hok s₁) hA
        obtain ⟨-, e⟩ := pure_ok_elim hB
        subst e
        exact sA
    obtain ⟨u₃, r₃, h₃, h⟩ := bind_ok_elim h
    have e₃ : r₃ = r₂.startCapF "$value" := by
      cases h₃
      rfl
    subst e₃
    have s₃ : okStep r₂ (r₂.startCapF "$value") := okStep_of_input_eq rfl
    obtain ⟨u₄, r₄, h₄, h⟩ := bind_ok_elim h
    have s₄ := okStep_of_input_eq (start_repeatM_ok_elim h₄)
    obtain ⟨u₅, r₅, h₅, h⟩ := bind_ok_elim h
    have s₅ := ihUL cr tt count r₄ u₅ r₅
      (inpOk_of_okStep hok (okStep_trans s₁ (okStep_trans s₂ (okStep_trans s₃ s₄)))) h₅
    obtain ⟨u₆, r₆, h₆, h⟩ := bind_ok_elim h
    have s₆ := okStep_of_input_eq (finish_repeatM_ok_elim h₆)
    have s₇ := okStep_of_input_eq (finish_captureM_ok_elim h)
    exact okStep_trans s₁ (okStep_trans s₂ (okStep_trans s₃ (okStep_trans s₄
      (okStep_trans s₅ (okStep_trans s₆ s₇)))))

theorem read_count_closureB_elim {fuel : Nat} (ihRPB : ConsumeRPB fuel)
    {cr : CalcRegex} {rr bound : Nat} {f : Bytes → Option Nat} {r : Reader}
    {v count : Nat} {r₁ : Reader} (hok : inpOk r)
    (h : read_count f (do
      let c ← Reader.parse_bounded cr fuel rr bound
      csubM bound c) r = .ok (v, count) r₁) :
    ∃ c, c ≤ bound ∧ v = bound - c ∧ okStep r r₁ ∧
      r₁.input.pos = r.input.pos + c := by
  obtain ⟨rc, hcl, einp⟩ := read_count_ok_elim h
  simp only [bindDef] at hcl
  obtain ⟨c, rA, hA, hB⟩ := bind_ok_elim hcl
  obtain ⟨sA, pA, leA⟩ := ihRPB cr rr bound (r.startCapF "$count") c rA hok hA
  obtain ⟨-, ev, eB⟩ := csub_ok_elim hB
  subst eB
  obtain ⟨a₁, a₂, a₃⟩ := sA
  simp only [startCapF_input] at a₁ a₂ a₃ pA
  refine ⟨c, leA, ev, ?_, ?_⟩
  · rw [okStep, einp]
    exact ⟨a₁, a₂, a₃⟩
  · rw [einp]
    exact pA

theorem sepB_elim {fuel : Nat} (ihRPB : ConsumeRPB fuel)
    {cr : CalcRegex} {ss : Option Nat} {bound₁ : Nat} {r₁ : Reader}
    {bound₂ : Nat} {r₂ : Reader} (hok : inpOk r₁)
    (h : (match ss with
      | some si => do
        let c ← Reader.parse_bounded cr fuel si bound₁
        csubM bound₁ c
      | none => ParseM.pure bound₁) r₁ = .ok bound₂ r₂) :
    ∃ c₂, c₂ ≤ bound₁ ∧ bound₂ = bound₁ - c₂ ∧ okStep r₁ r₂ ∧
      r₂.input.pos = r₁.input.pos + c₂ := by
  rcases hs : ss with - | si
  · simp only [hs] at h
    obtain ⟨e₁, e₂⟩ := pure_ok_elim h
    subst e₂
    exact ⟨0, by omega, by omega, okStep_rfl _, by omega⟩
  · simp only [hs, bindDef] at h
    obtain ⟨c, rA, hA, hB⟩ := bind_ok_elim h
    obtain ⟨sA, pA, leA⟩ := ihRPB cr si bound₁ r₁ c rA hok hA
    obtain ⟨-, ev, eB⟩ := csub_ok_elim hB
    subst eB
    exact ⟨c, leA, ev, sA, pA⟩

theorem consumeCPB_succ {fuel : Nat} (ih : ConsumeAll fuel) : ConsumeCPB (fuel + 1) := by
  obtain ⟨ihRPU, ihRPB, ihRPE, -, -, -, ihUL, ihBL, ihKL⟩ := ih
  intro cr node bound r a r' hok h
  obtain ⟨nname, nlb, ninner⟩ := node
  cases ninner with
  | Regex re =>
    simp only [CalcRegex.parse_bounded] at h
    obtain ⟨e₁, e₂, e₃, e₄, -⟩ := match_regex_bounded_ok_elim h
    exact ⟨⟨e₁, e₂, e₃⟩, e₄⟩
  | CalcRegex idx =>
    simp only [CalcRegex.parse_bounded, bindDef] at h
    obtain ⟨c, r₁, h₁, h₂⟩ := bind_ok_elim h
    obtain ⟨s₁, p₁, le₁⟩ := ihRPB cr idx bound r c r₁ hok h₁
    obtain ⟨-, e⟩ := pure_ok_elim h₂
    subst e
    exact ⟨s₁, by omega⟩
  | Concat rr ss =>
    simp only [CalcRegex.parse_bounded, bindDef] at h
    obtain ⟨c₁, r₁, h₁, h⟩ := bind_ok_elim h
    obtain ⟨s₁, p₁, le₁⟩ := ihRPB cr rr bound r c₁ r₁ hok h₁
    obtain ⟨v, r₂, hc, h⟩ := bind_ok_elim h
    obtain ⟨-, ev, e₂⟩ := csub_ok_elim hc
    subst e₂
    subst ev
    obtain ⟨c₂, r₃, h₃, h⟩ := bind_ok_elim h
    obtain ⟨s₃, p₃, le₃⟩ := ihRPB cr ss (bound - c₁) r₂ c₂ r₃
      (inpOk_of_okStep hok s₁) h₃
    obtain ⟨-, e⟩ := pure_ok_elim h
    subst e
    exact ⟨okStep_trans s₁ s₃, by omega⟩
  | Repeat idx n =>
    simp only [CalcRegex.parse_bounded, bindDef] at h
    obtain ⟨u₁, r₁, h₁, h⟩ := bind_ok_elim h
    have s₁ := okStep_of_input_eq (start_repeatM_ok_elim h₁)
    have e₁ := start_repeatM_ok_elim h₁
    obtain ⟨b', r₂, h₂, h⟩ := bind_ok_elim h
    obtain ⟨s₂, le₂, p₂⟩ := ihBL cr idx n bound r₁ b' r₂ (inpOk_of_okStep hok s₁) h₂
    have e₃ := finish_repeatM_ok_elim h
    have s₃ := okStep_of_input_eq e₃
    refine ⟨okStep_trans s₁ (okStep_trans s₂ s₃), ?_⟩
    have e₃p : r'.input.pos = r₂.input.pos := by rw [e₃]
    have e₁p : r₁.input.pos = r.input.pos := by rw [e₁]
    omega
  | KleeneStar idx =>
    simp [CalcRegex.parse_bounded, faultM] at h
  | LengthCount rr ss tt ff =>
    simp only [CalcRegex.parse_bounded, bindDef] at h
    obtain ⟨ac, r₁, h₁, h⟩ := bind_ok_elim h
    obtain ⟨bound₁, count⟩ := ac
    obtain ⟨c₁, le₁, ev₁, s₁, p₁⟩ := read_count_closureB_elim ihRPB hok h₁
    obtain ⟨bound₂, r₂, h₂, h⟩ := bind_ok_elim h
    obtain ⟨c₂, le₂, ev₂, s₂, p₂⟩ := sepB_elim ihRPB (inpOk_of_okStep hok s₁) h₂
    by_cases hbc : bound₂ < count
    · rw [if_pos hbc] at h
      exact absurd h (by simp [throwM])
    · rw [if_neg hbc] at h
      simp only [bindDef] at h
      obtain ⟨u₃, r₃, h₃, h⟩ := bind_ok_elim h
      have e₃ : r₃ = r₂.startCapF "$value" := by
        cases h₃
        rfl
      subst e₃
      have s₃ : okStep r₂ (r₂.startCapF "$value") := okStep_of_input_eq rfl
      obtain ⟨u₄, r₄, h₄, h⟩ := bind_ok_elim h
      obtain ⟨s₄, p₄⟩ := ihRPE cr tt count _ u₄ r₄
        (inpOk_of_okStep hok (okStep_trans s₁ (okStep_trans s₂ s₃))) h₄
      have e₅ := finish_captureM_ok_elim h
      have s₅ := okStep_of_input_eq e₅
      refine ⟨okStep_trans s₁ (okStep_trans s₂ (okStep_trans s₃ (okStep_trans s₄ s₅))), ?_⟩
      have e₅p : r'.input.pos = r₄.input.pos := by rw [e₅]
      simp only [startCapF_input] at p₄
      omega
  | OccurrenceCount rr ss tt ff =>
    simp only [CalcRegex.parse_bounded, bindDef] at h
    obtain ⟨ac, r₁, h₁, h⟩ := bind_ok_elim h
    obtain ⟨bound₁, count⟩ := ac
    obtain ⟨c₁, le₁, ev₁, s₁, p₁⟩ := read_count_closureB_elim ihRPB hok h₁
    obtain ⟨bound₂, r₂, h₂, h⟩ := bind_ok_elim h
    obtain ⟨c₂, le₂, ev₂, s₂, p₂⟩ := sepB_elim ihRPB (inpOk_of_okStep hok s₁) h₂
    obtain ⟨u₃, r₃, h₃, h⟩ := bind_ok_elim h
    have e₃ : r₃ = r₂.startCapF "$value" := by
      cases h₃
      rfl
    subst e₃
    have s₃ : okStep r₂ (r₂.startCapF "$value") := okStep_of_input_eq rfl
    obtain ⟨u₄, r₄, h₄, h⟩ := bind_ok_elim h
    have e₄ := start_repeatM_ok_elim h₄
    have s₄ := okStep_of_input_eq e₄
    obtain ⟨b', r₅, h₅, h⟩ := bind_ok_elim h
    obtain ⟨s₅, le₅, p₅⟩ := ihBL cr tt count bound₂ r₄ b' r₅
      (inpOk_of_okStep hok (okStep_trans s₁ (okStep_trans s₂ (okStep_trans s₃ s₄)))) h₅
    obtain ⟨u₆, r₆, h₆, h⟩ := bind_ok_elim h
    have e₆ := finish_repeatM_ok_elim h₆
    have s₆ := okStep_of_input_eq e₆
    have e₇ := finish_captureM_ok_elim h
    have s₇ := okStep_of_input_eq e₇
    refine ⟨okStep_trans s₁ (okStep_trans s₂ (okStep_trans s₃ (okStep_trans s₄
      (okStep_trans s₅ (okStep_trans s₆ s₇))))), ?_⟩
    have e₄p : r₄.input.pos = r₂.input.pos := by
      rw [e₄]
      rfl
    have e₆p : r₆.input.pos = r₅.input.pos := by rw [e₆]
    have e₇p : r'.input.pos = r₆.input.pos := by rw [e₇]
    omega

theorem consumeCPE_succ {fuel : Nat} (ih : ConsumeAll fuel) : ConsumeCPE (fuel + 1) := by
  obtain ⟨ihRPU, ihRPB, ihRPE, -, -, -, ihUL, ihBL, ihKL⟩ := ih
  intro cr node length r a r' hok h
  obtain ⟨nname, nlb, ninner⟩ := node
  cases ninner with
  | Regex re =>
    simp only [CalcRegex.parse_exact] at h
    obtain ⟨e₁, e₂, e₃, -, -⟩ := match_regex_exact_ok_elim h
    exact ⟨⟨e₁, e₂, by omega⟩, e₃⟩
  | CalcRegex idx =>
    simp only [CalcRegex.parse_exact] at h
    exact ihRPE cr idx length r a r' hok h
  | Concat rr ss =>
    simp only [CalcRegex.parse_exact, bindDef] at h
    obtain ⟨c₁, r₁, h₁, h⟩ := bind_ok_elim h
    obtain ⟨s₁, p₁, le₁⟩ := ihRPB cr rr length r c₁ r₁ hok h₁
    obtain ⟨v, r₂, hc, h⟩ := bind_ok_elim h
    obtain ⟨-, ev, e₂⟩ := csub_ok_elim hc
    subst e₂
    subst ev
    obtain ⟨s₃, p₃⟩ := ihRPE cr ss (length - c₁) r₂ a r'
      (inpOk_of_okStep hok s₁) h
    exact ⟨okStep_trans s₁ s₃, by omega⟩
  | Repeat idx n =>
    simp only [CalcRegex.parse_exact, bindDef] at h
    obtain ⟨u₁, r₁, h₁, hA⟩ := bind_ok_elim h
    clear h
    have e₁ := start_repeatM_ok_elim h₁
    have s₁ := okStep_of_input_eq e₁
    obtain ⟨k, r₂, hk, hB⟩ := bind_ok_elim hA
    clear hA
    obtain ⟨-, -, e₂⟩ := csub_ok_elim hk
    rw [e₂] at hB
    obtain ⟨l', r₃, h₃, hC⟩ := bind_ok_elim hB
    clear hB
    obtain ⟨s₃, le₃, p₃⟩ := ihBL cr idx k length r₁ l' r₃ (inpOk_of_okStep hok s₁) h₃
    obtain ⟨u₄, r₄, h₄, hD⟩ := bind_ok_elim hC
    clear hC
    obtain ⟨s₄, p₄⟩ := ihRPE cr idx l' r₃ u₄ r₄
      (inpOk_of_okStep hok (okStep_trans s₁ s₃)) h₄
    have e₅ := finish_repeatM_ok_elim hD
    have s₅ := okStep_of_input_eq e₅
    refine ⟨okStep_trans s₁ (okStep_trans s₃ (okStep_trans s₄ s₅)), ?_⟩
    have e₁p : r₁.input.pos = r.input.pos := by rw [e₁]
    have e₅p : r'.input.pos = r₄.input.pos := by rw [e₅]
    omega
  | KleeneStar idx =>
    simp only [CalcRegex.parse_exact, bindDef] at h
    obtain ⟨u₁, r₁, h₁, h⟩ := bind_ok_elim h
    have e₁ := start_repeatM_ok_elim h₁
    have s₁ := okStep_of_input_eq e₁
    obtain ⟨u₂, r₂, h₂, h⟩ := bind_ok_elim h
    obtain ⟨s₂, p₂⟩ := ihKL cr idx length r₁ u₂ r₂ (inpOk_of_okStep hok s₁) h₂
    have e₃ := finish_repeatM_ok_elim h
    have s₃ := okStep_of_input_eq e₃
    refine ⟨okStep_trans s₁ (okStep_trans s₂ s₃), ?_⟩
    have e₁p : r₁.input.pos = r.input.pos := by rw [e₁]
    have e₃p : r'.input.pos = r₂.input.pos := by rw [e₃]
    omega
  | LengthCount rr ss tt ff =>
    simp only [CalcRegex.parse_exact, bindDef] at h
    obtain ⟨ac, r₁, h₁, h⟩ := bind_ok_elim h
    obtain ⟨length₁, count⟩ := ac
    obtain ⟨c₁, le₁, ev₁, s₁, p₁⟩ := read_count_closureB_elim ihRPB hok h₁
    obtain ⟨u₂, r₂, h₂, h⟩ := bind_ok_elim h
    have hsep : okStep r₁ r₂ ∧ r₂.input.pos = r₁.input.pos + (length₁ - count) ∧
        count ≤ length₁ := by
      rcases hs : ss with - | si
      · simp only [hs] at h₂
        by_cases hne : length₁ ≠ count
        · rw [if_pos hne] at h₂
          exact absurd h₂ (by simp [throwM])
        · rw [if_neg hne] at h₂
          obtain ⟨-, e⟩ := pure_ok_elim h₂
          subst e
          have : length₁ = count := by omega
          exact ⟨okStep_rfl _, by omega, by omega⟩
      · simp only [hs, bindDef] at h₂
        obtain ⟨d, rA, hd, hB⟩ := bind_ok_elim h₂
        obtain ⟨hcle, ed, eA⟩ := csub_ok_elim hd
        subst eA
        subst ed
        obtain ⟨sB, pB⟩ := ihRPE cr si (length₁ - count) rA u₂ r₂
          (inpOk_of_okStep hok s₁) hB
        exact ⟨sB, pB, hcle⟩
    obtain ⟨s₂, p₂, lec⟩ := hsep
    obtain ⟨u₃, r₃, h₃, h⟩ := bind_ok_elim h
    have e₃ : r₃ = r₂.startCapF "$value" := by
      cases h₃
      rfl
    subst e₃
    have s₃ : okStep r₂ (r₂.startCapF "$value") := okStep_of_input_eq rfl
    obtain ⟨u₄, r₄, h₄, h⟩ := bind_ok_elim h
    obtain ⟨s₄, p₄⟩ := ihRPE cr tt count _ u₄ r₄
      (inpOk_of_okStep hok (okStep_trans s₁ (okStep_trans s₂ s₃))) h₄
    have e₅ := finish_captureM_ok_elim h
    have s₅ := okStep_of_input_eq e₅
    refine ⟨okStep_trans s₁ (okStep_trans s₂ (okStep_trans s₃ (okStep_trans s₄ s₅))), ?_⟩
    have e₅p : r'.input.pos = r₄.input.pos := by rw [e₅]
    simp only [startCapF_input] at p₄
    omega
  | OccurrenceCount rr ss tt ff =>
    simp only [CalcRegex.parse_exact, bindDef] at h
    obtain ⟨ac, r₁, h₁, hA⟩ := bind_ok_elim h
    clear h
    obtain ⟨length₁, count⟩ := ac
    obtain ⟨c₁, le₁, ev₁, s₁, p₁⟩ := read_count_closureB_elim ihRPB hok h₁
    obtain ⟨length₂, r₂, h₂, hB⟩ := bind_ok_elim hA
    clear hA
    obtain ⟨c₂, le₂, ev₂, s₂, p₂⟩ := sepB_elim ihRPB (inpOk_of_okStep hok s₁) h₂
    obtain ⟨u₃, r₃, h₃, hC⟩ := bind_ok_elim hB
    clear hB
    have e₃ : r₃ = r₂.startCapF "$value" := by
      cases h₃
      rfl
    rw [e₃] at hC
    have s₃ : okStep r₂ (r₂.startCapF "$value") := okStep_of_input_eq rfl
    obtain ⟨u₄, r₄, h₄, hD⟩ := bind_ok_elim hC
    clear hC
    have e₄ := start_repeatM_ok_elim h₄
    have s₄ := okStep_of_input_eq e₄
    obtain ⟨k, r₅, hk, hE⟩ := bind_ok_elim hD
    clear hD
    obtain ⟨-, -, e₅⟩ := csub_ok_elim hk
    rw [e₅] at hE
    obtain ⟨l₃, r₆, h₆, hF⟩ := bind_ok_elim hE
    clear hE
    obtain ⟨s₆, le₆, p₆⟩ := ihBL cr tt k length₂ r₄ l₃ r₆
      (inpOk_of_okStep hok (okStep_trans s₁ (okStep_trans s₂ (okStep_trans s₃ s₄)))) h₆
    obtain ⟨u₇, r₇, h₇, hG⟩ := bind_ok_elim hF
    clear hF
    obtain ⟨s₇, p₇⟩ := ihRPE cr tt l₃ r₆ u₇ r₇
      (inpOk_of_okStep hok (okStep_trans s₁ (okStep_trans s₂ (okStep_trans s₃
        (okStep_trans s₄ s₆))))) h₇
    obtain ⟨u₈, r₈, h₈, hH⟩ := bind_ok_elim hG
    clear hG
    have e₈ := finish_repeatM_ok_elim h₈
    have s₈ := okStep_of_input_eq e₈
    have e₉ := finish_captureM_ok_elim hH
    have s₉ := okStep_of_input_eq e₉
    refine ⟨okStep_trans s₁ (okStep_trans s₂ (okStep_trans s₃ (okStep_trans s₄
      (okStep_trans s₆ (okStep_trans s₇ (okStep_trans s₈ s₉)))))), ?_⟩
    have e₄p : r₄.input.pos = r₂.input.pos := by
      rw [e₄]
      rfl
    have e₈p : r₈.input.pos = r₇.input.pos := by rw [e₈]
    have e₉p : r'.input.pos = r₈.input.pos := by rw [e₉]
    omega

/-- The interpreter's consumption contracts hold at every budget. -/
theorem consumeAll (fuel : Nat) : ConsumeAll fuel := by
  induction fuel with
  | zero =>
    refine ⟨?_, ?_, ?_, ?_, ?_, ?_, ?_, ?_, ?_⟩
    · intro cr idx r c r' hok h
      exact absurd h (by simp [Reader.parse_unbounded, divM])
    · intro cr idx bound r c r' hok h
      exact absurd h (by simp [Reader.parse_bounded, divM])
    · intro cr idx length r a r' hok h
      exact absurd h (by simp [Reader.parse_exact, divM])
    · intro cr node r a r' hok h
      exact absurd h (by simp [CalcRegex.parse_unbounded, divM])
    · intro cr node bound r a r' hok h
      exact absurd h (by simp [CalcRegex.parse_bounded, divM])
    · intro cr node length r a r' hok h
      exact absurd h (by simp [CalcRegex.parse_exact, divM])
    · intro cr idx n r a r' hok h
      exact absurd h (by simp [unboundedLoop, divM])
    · intro cr idx n bound r b' r' hok h
      exact absurd h (by simp [boundedLoop, divM])
    · intro cr idx length r a r' hok h
      exact absurd h (by simp [kleeneLoop, divM])
  | succ n ihn =>
    exact ⟨consumeRPU_succ ihn, consumeRPB_succ ihn, consumeRPE_succ ihn,
      consumeCPU_succ ihn, consumeCPB_succ ihn, consumeCPE_succ ihn,
      consumeUL_succ ihn, consumeBL_succ ihn, consumeKL_succ ihn⟩

/-- C1: for every node of the expression graph and every length argument, a
successful exact-mode parse (`parse_exact`, both the node-level routine and
the reader wrapper) advances the reader's position by exactly that many
bytes; any leftover makes success impossible. -/
theorem claim_C1_parse_exact_consumes_exactly :
    (∀ cr fuel node length r a r', inpOk r →
      CalcRegex.parse_exact cr fuel node length r = .ok a r' →
      r'.input.pos = r.input.pos + length) ∧
    (∀ cr fuel idx length r a r', inpOk r →
      Reader.parse_exact cr fuel idx length r = .ok a r' →
      r'.input.pos = r.input.pos + length) := by
  constructor
  · intro cr fuel node length r a r' hok h
    exact ((consumeAll fuel).2.2.2.2.2.1 cr node length r a r' hok h).2
  · intro cr fuel idx length r a r' hok h
    exact ((consumeAll fuel).2.2.1 cr idx length r a r' hok h).2

theorem claim_C1_parse_exact_consumes_exactly_witness :
    rdC1done.input.pos = rdC1.input.pos + 4 ∧
    rdC1done.input.pos = rdC1.input.pos + 4 :=
  ⟨claim_C1_parse_exact_consumes_exactly.1 crC1 5 nodeC1 4 rdC1 () rdC1done
      (by unfold inpOk; decide) (by rfl),
   claim_C1_parse_exact_consumes_exactly.2 crC1 5 0 4 rdC1 () rdC1done
      (by unfold inpOk; decide) (by rfl)⟩

/-- C2: before descending into a node carrying a `length_bound`, bounded mode
tightens the incoming bound to `min(incoming_bound, node.length_bound)`; in
exact mode a node bound strictly smaller than the requested length fails with
`ConflictingBounds` before anything else runs. -/
theorem claim_C2_node_bound_enforcement :
    ∀ cr fuel idx bound length r node lb,
      cr.getNode? idx = some node → node.length_bound = some lb →
      (Reader.parse_bounded cr (fuel + 1) idx bound r =
        (do
          let start_pos ← getPosM
          startNameM node.name
          CalcRegex.parse_bounded cr fuel node (min bound lb)
          finishNameM node.name
          let end_pos ← getPosM
          ParseM.pure (end_pos - start_pos)) r) ∧
      (lb < length →
        Reader.parse_exact cr (fuel + 1) idx length r =
          .err (.ConflictingBounds length lb)) := by
  intro cr fuel idx bound length r node lb hnode hlb
  constructor
  · simp only [Reader.parse_bounded, hnode, hlb]
  · intro hlt
    simp only [Reader.parse_exact, hnode, hlb, if_pos hlt]
    rfl

theorem claim_C2_node_bound_enforcement_witness :
    (Reader.parse_bounded crC2 8 0 4 rdC1 =
      (do
        let start_pos ← getPosM
        startNameM nodeC2.name
        CalcRegex.parse_bounded crC2 7 nodeC2 (min 4 6)
        finishNameM nodeC2.name
        let end_pos ← getPosM
        ParseM.pure (end_pos - start_pos)) rdC1) ∧
    (Reader.parse_exact crC2 8 0 9 rdC1 = .err (.ConflictingBounds 9 6)) := by
  have h := claim_C2_node_bound_enforcement crC2 7 0 4 9 rdC1 nodeC2 6 (by rfl) (by rfl)
  exact ⟨h.1, h.2 (by decide)⟩

/-- C10: exact-mode repetition loops iterate `0..n-1` (respectively
`0..count-1`), so a repetition count of zero underflows the `usize`
subtraction and aborts with an unrecoverable fault rather than a
`ParserResult` error; for `n ≥ 1` the subtraction is well-defined and the
parse proceeds into the loop. -/
theorem claim_C10_exact_zero_count_underflow :
    ∀ cr fuel node length r,
      (∀ idx, node.inner = .Repeat idx 0 →
        CalcRegex.parse_exact cr (fuel + 1) node length r = .fault) ∧
      (∀ rr tt f len₁ r₁, node.inner = .OccurrenceCount rr none tt f →
        read_count f (do
          let c ← Reader.parse_bounded cr fuel rr length
          csubM length c) r = .ok (len₁, 0) r₁ →
        CalcRegex.parse_exact cr (fuel + 1) node length r = .fault) ∧
      (∀ idx n, node.inner = .Repeat idx (n + 1) →
        CalcRegex.parse_exact cr (fuel + 1) node length r =
          (do
            start_repeatM
            let length' ← boundedLoop cr fuel idx n length
            Reader.parse_exact cr fuel idx length'
            finish_repeatM) r) := by
  intro cr fuel node length r
  obtain ⟨nn, nlb, ni⟩ := node
  have hcs0 : (csubM 0 1 : ParseM Nat) = faultM := by
    unfold csubM
    rw [if_neg (by omega)]
  refine ⟨?_, ?_, ?_⟩
  · intro idx hin
    replace hin : ni = Inner.Repeat idx 0 := hin
    subst hin
    simp only [CalcRegex.parse_exact, bindDef]
    rw [bind_ok_intro (show start_repeatM r =
      .ok () { r with captures := ("", Capture.Repeat []) :: r.captures } from rfl)]
    rw [hcs0]
    rfl
  · intro rr tt f len₁ r₁ hin h₁
    replace hin : ni = Inner.OccurrenceCount rr none tt f := hin
    subst hin
    simp only [bindDef] at h₁
    simp only [CalcRegex.parse_exact, bindDef]
    rw [bind_ok_intro h₁]
    simp only [bind_pure_left]
    rw [bind_ok_intro (start_captureM_apply "$value" r₁)]
    rw [bind_ok_intro (show start_repeatM (r₁.startCapF "$value") =
      .ok () { r₁.startCapF "$value" with
        captures := ("", Capture.Repeat []) :: (r₁.startCapF "$value").captures } from rfl)]
    rw [hcs0]
    rfl
  · intro idx n hin
    replace hin : ni = Inner.Repeat idx (n + 1) := hin
    subst hin
    have hcs : (csubM (n + 1) 1 : ParseM Nat) = ParseM.pure n := by
      unfold csubM
      rw [if_pos (by omega)]
      simp
    simp only [CalcRegex.parse_exact, bindDef, hcs, bind_pure_left]

theorem claim_C10_exact_zero_count_underflow_witness :
    CalcRegex.parse_exact crRep0 30 nodeRep0 0 rdC1 = .fault :=
  (claim_C10_exact_zero_count_underflow crRep0 29 nodeRep0 0 rdC1).1 0 (by rfl)

/-- C4: the count-reading protocol hands the decode function exactly the byte
slice between the position recorded before the count sub-parse and the
position after it, succeeds with the decoded value, and on a decode failure
reports `CannotReadCount` carrying exactly those raw bytes. -/
theorem claim_C4_read_count_decodes_exact_span :
    ∀ (α : Type) (f : Bytes → Option Nat) (p : ParseM α) (r : Reader) (a : α)
      (r₁ r₂ : Reader),
      p (r.startCapF "$count") = .ok a r₁ →
      finish_captureM "$count" r₁ = .ok () r₂ →
      read_count f p r =
        (match f (r₂.get_range (r.pos, r₂.pos)) with
         | some count => .ok (a, count) r₂
         | none => .err (.CannotReadCount (r₂.get_range (r.pos, r₂.pos)))) := by
  intro α f p r a r₁ r₂ h₁ h₂
  unfold read_count
  simp only [bindDef]
  rw [bind_ok_intro (start_captureM_apply "$count" r)]
  rw [bind_ok_intro (getPosM_apply (r.startCapF "$count"))]
  rw [bind_ok_intro h₁]
  rw [bind_ok_intro h₂]
  rw [bind_ok_intro (getPosM_apply r₂)]
  rw [bind_ok_intro (getRangeM_apply _ r₂)]
  have e : Reader.pos (r.startCapF "$count") = r.pos := rfl
  rw [e]
  cases hf : f (r₂.get_range (r.pos, r₂.pos)) with
  | none => simp only [hf, throwM]
  | some count => simp only [hf, pure_apply]

theorem claim_C4_read_count_decodes_exact_span_witness :
    read_count decC4 (read_nM 2) rdC4 =
      (match decC4 (rdC4b.get_range (rdC4.pos, rdC4b.pos)) with
       | some count => .ok (((), count)) rdC4b
       | none => .err (.CannotReadCount (rdC4b.get_range (rdC4.pos, rdC4b.pos)))) :=
  claim_C4_read_count_decodes_exact_span Unit decC4 (read_nM 2) rdC4 () rdC4a rdC4b
    (by rfl) (by rfl)

/-- C3 (amended): in bounded mode, for a `LengthCount` production, after the
count sub-parse and the optional separator sub-parse have each decremented
the running bound, a remaining bound smaller than the decoded count fails
with `ConflictingBounds{old: remaining bound, new: count}`.  (The
`OccurrenceCount` arm performs no such comparison; see the
counterexample.) -/
theorem claim_C3_bounded_lengthcount_bound_vs_count :
    ∀ (cr : CalcRegex) (fuel : Nat) (node : Node) (rr : Nat) (ss : Option Nat)
      (tt : Nat) (f : Bytes → Option Nat) (bound : Nat) (r : Reader)
      (bound₁ count : Nat) (r₁ : Reader) (bound₂ : Nat) (r₂ : Reader),
      node.inner = .LengthCount rr ss tt f →
      read_count f (do
        let c ← Reader.parse_bounded cr fuel rr bound
        csubM bound c) r = .ok (bound₁, count) r₁ →
      ((match ss with
        | some si => do
            let c ← Reader.parse_bounded cr fuel si bound₁
            csubM bound₁ c
        | none => ParseM.pure bound₁) : ParseM Nat) r₁ = .ok bound₂ r₂ →
      bound₂ < count →
      CalcRegex.parse_bounded cr (fuel + 1) node bound r =
        .err (.ConflictingBounds bound₂ count) := by
  intro cr fuel node rr ss tt f bound r bound₁ count r₁ bound₂ r₂ hin h₁ h₂ hlt
  obtain ⟨nn, nlb, ni⟩ := node
  replace hin : ni = Inner.LengthCount rr ss tt f := hin
  subst hin
  simp only [bindDef] at h₁ h₂
  simp only [CalcRegex.parse_bounded, bindDef]
  rw [bind_ok_intro h₁]
  show ParseM.bind _ _ r₁ = _
  rw [bind_ok_intro h₂]
  show ((if bound₂ < count then _ else _ : ParseM Unit)) r₂ = _
  rw [if_pos hlt]
  rfl

theorem claim_C3_bounded_lengthcount_bound_vs_count_witness :
    CalcRegex.parse_bounded crC3 20 nodeC3 3 rdC3 =
      .err (.ConflictingBounds 2 5) :=
  claim_C3_bounded_lengthcount_bound_vs_count crC3 19 nodeC3 0 none 1 dec5 3 rdC3
    2 5 { rdC3 with
          input := { input := [53], start := 0, pos := 1 },
          captures := [("root", .Single (.mk 0 0
            [("len", .Single (.mk 0 1 [])), ("$count", .Single (.mk 0 1 []))]))] }
    2 { rdC3 with
        input := { input := [53], start := 0, pos := 1 },
        captures := [("root", .Single (.mk 0 0
          [("len", .Single (.mk 0 1 [])), ("$count", .Single (.mk 0 1 []))]))] }
    (by rfl) (by rfl) (by rfl) (by decide)

/-- C3 counterexample: an occurrence-counted production in bounded mode whose
decoded count (five) exceeds the remaining bound (zero after the counter
consumed the whole one-byte budget) parses successfully — no
`ConflictingBounds` check is performed in the `OccurrenceCount` arm. -/
theorem claim_C3_counterexample_occurrence_no_check :
    (CalcRegex.parse_bounded crC3ce 29 nodeC3ce 1 rdC3).isOk = true ∧
    dec5 [53] = some 5 ∧
    rdC3.input.input.length = 1 := ⟨rfl, rfl, rfl⟩

theorem setBoundNodes_none_iff (name : String) (bound : Nat) (l : List Node) :
    CalcRegex.setBoundNodes name bound l = none ↔
      ∀ nd ∈ l, nd.name ≠ some name := by
  induction l with
  | nil => simp [CalcRegex.setBoundNodes]
  | cons nd rest ih =>
    simp only [CalcRegex.setBoundNodes]
    by_cases hb : nd.name = some name
    · rw [if_pos (by simp [hb])]
      simp [hb]
    · rw [if_neg (by simp [hb])]
      constructor
      · intro h nd' hmem
        rcases List.mem_cons.mp hmem with rfl | hmem
        · exact hb
        · have : CalcRegex.setBoundNodes name bound rest = none := by
            cases hx : CalcRegex.setBoundNodes name bound rest with
            | none => rfl
            | some l' => rw [hx] at h; exact absurd h (by simp)
          exact (ih.mp this) nd' hmem
      · intro h
        have : CalcRegex.setBoundNodes name bound rest = none :=
          ih.mpr (fun nd' hmem => h nd' (List.mem_cons_of_mem _ hmem))
        rw [this]
        rfl

theorem setBoundNodes_some_decomp (name : String) (bound : Nat) :
    ∀ (l l' : List Node), CalcRegex.setBoundNodes name bound l = some l' →
      ∃ pre nd post, l = pre ++ nd :: post ∧
        (∀ nd' ∈ pre, nd'.name ≠ some name) ∧
        nd.name = some name ∧
        l' = pre ++ { nd with length_bound := some bound } :: post := by
  intro l
  induction l with
  | nil => intro l' h; exact absurd h (by simp [CalcRegex.setBoundNodes])
  | cons nd rest ih =>
    intro l' h
    simp only [CalcRegex.setBoundNodes] at h
    by_cases hb : nd.name = some name
    · rw [if_pos (by simp [hb])] at h
      cases h
      exact ⟨[], nd, rest, by simp, by simp, hb, by simp⟩
    · rw [if_neg (by simp [hb])] at h
      cases hx : CalcRegex.setBoundNodes name bound rest with
      | none => rw [hx] at h; exact absurd h (by simp)
      | some rest' =>
        rw [hx] at h
        obtain ⟨pre, nd₀, post, e₁, e₂, e₃, e₄⟩ := ih rest' hx
        cases h
        refine ⟨nd :: pre, nd₀, post, by simp [e₁], ?_, e₃, by simp [e₄]⟩
        intro nd' hmem
        rcases List.mem_cons.mp hmem with rfl | hmem
        · exact hb
        · exact e₂ nd' hmem

theorem setBoundNodes_idem (name : String) (bound : Nat) :
    ∀ (l l' : List Node), CalcRegex.setBoundNodes name bound l = some l' →
      CalcRegex.setBoundNodes name bound l' = some l' := by
  intro l
  induction l with
  | nil => intro l' h; exact absurd h (by simp [CalcRegex.setBoundNodes])
  | cons nd rest ih =>
    intro l' h
    simp only [CalcRegex.setBoundNodes] at h
    by_cases hb : nd.name = some name
    · rw [if_pos (by simp [hb])] at h
      cases h
      simp only [CalcRegex.setBoundNodes]
      rw [if_pos (by simp [hb])]
    · rw [if_neg (by simp [hb])] at h
      cases hx : CalcRegex.setBoundNodes name bound rest with
      | none => rw [hx] at h; exact absurd h (by simp)
      | some rest' =>
        rw [hx] at h
        cases h
        simp only [CalcRegex.setBoundNodes]
        rw [if_neg (by simp [hb]), ih rest' hx]
        rfl

/-- C8: `set_length_bound(name, bound)` fails with `NoSuchName` exactly when
no node carries that name; otherwise it rewrites that node's bound, leaves
every other node and the root index unchanged, and applying it a second time
with the same arguments yields an identical graph. -/
theorem claim_C8_set_length_bound_spec :
    ∀ (cr : CalcRegex) (name : String) (bound : Nat),
      (cr.set_length_bound name bound = .error (.NoSuchName name) ↔
        ∀ nd ∈ cr.nodes, nd.name ≠ some name) ∧
      (∀ cr', cr.set_length_bound name bound = .ok cr' →
        cr'.root = cr.root ∧
        (∃ pre nd post,
          cr.nodes = pre ++ nd :: post ∧
          (∀ nd' ∈ pre, nd'.name ≠ some name) ∧
          nd.name = some name ∧
          cr'.nodes = pre ++ { nd with length_bound := some bound } :: post) ∧
        cr'.set_length_bound name bound = .ok cr') := by
  intro cr name bound
  constructor
  · unfold CalcRegex.set_length_bound
    cases hx : CalcRegex.setBoundNodes name bound cr.nodes with
    | none =>
      simp only []
      constructor
      · intro _
        exact (setBoundNodes_none_iff name bound cr.nodes).mp hx
      · intro _
        trivial
    | some ns =>
      simp only []
      constructor
      · intro h
        exact absurd h (by simp)
      · intro h
        obtain ⟨pre, nd, post, e₁, -, e₃, -⟩ :=
          setBoundNodes_some_decomp name bound cr.nodes ns hx
        exact absurd e₃ (h nd (by rw [e₁]; simp))
  · intro cr' h
    unfold CalcRegex.set_length_bound at h
    cases hx : CalcRegex.setBoundNodes name bound cr.nodes with
    | none => rw [hx] at h; exact absurd h (by simp)
    | some ns =>
      rw [hx] at h
      have e : cr' = { cr with nodes := ns } := by
        cases h
        rfl
      subst e
      refine ⟨rfl, ?_, ?_⟩
      · exact setBoundNodes_some_decomp name bound cr.nodes ns hx
      · unfold CalcRegex.set_length_bound
        rw [setBoundNodes_idem name bound cr.nodes ns hx]

theorem claim_C8_set_length_bound_spec_witness :
    crC8b.root = crC8.root ∧
    (∃ pre nd post,
      crC8.nodes = pre ++ nd :: post ∧
      (∀ nd' ∈ pre, nd'.name ≠ some "b") ∧
      nd.name = some "b" ∧
      crC8b.nodes = pre ++ { nd with length_bound := some 7 } :: post) ∧
    crC8b.set_length_bound "b" 7 = .ok crC8b :=
  (claim_C8_set_length_bound_spec crC8 "b" 7).2 crC8b (by rfl)

theorem get_single_capture_single_segment (root : SingleCapture) (name : String)
    (hsplit : splitOnChar '.' name.toList = [name.toList]) :
    get_single_capture root name = resolveFragments root [name] := by
  unfold get_single_capture
  rw [hsplit]
  have e : String.mk name.toList = name := rfl
  rw [List.map_cons, List.map_nil, e]

/-- C7 (amended): single-segment resolution against the capture tree returns
exactly the error the segment shape dictates — `MisplacedSingleAccess` for an
un-indexed segment hitting a repeat, `MisplacedRepeatAccess` for an indexed
segment hitting a single, `OutOfBounds{index, len}` for an index (that fits
in the machine word) not below the repeat's length, `NoSuchName` for an
unknown segment, and `InvalidCaptureName` for a bracket suffix that is
unclosed, non-numeric, or whose numeral overflows `usize`. -/
theorem claim_C7_capture_resolution_errors :
    ∀ (root : SingleCapture) (name : String),
      splitOnChar '.' name.toList = [name.toList] →
      (∀ base cs, fragmentIndex name.toList = .ok (base, none) →
        alGet (String.mk base) root.children = some (.Repeat cs) →
        get_single_capture root name =
          .error (.MisplacedSingleAccess (String.mk base))) ∧
      (∀ base i c, fragmentIndex name.toList = .ok (base, some i) →
        alGet (String.mk base) root.children = some (.Single c) →
        get_single_capture root name =
          .error (.MisplacedRepeatAccess (String.mk base))) ∧
      (∀ base i cs, fragmentIndex name.toList = .ok (base, some i) →
        alGet (String.mk base) root.children = some (.Repeat cs) →
        cs.length ≤ i →
        get_single_capture root name =
          .error (.OutOfBounds (String.mk base) i cs.length)) ∧
      (∀ base index?, fragmentIndex name.toList = .ok (base, index?) →
        alGet (String.mk base) root.children = none →
        get_single_capture root name = .error (.NoSuchName (String.mk base))) ∧
      (∀ e, fragmentIndex name.toList = .error e →
        get_single_capture root name = .error e) ∧
      (∀ pos, name.toList.findIdx? (· == '[') = some pos →
        name.toList.getLast? ≠ some ']' →
        fragmentIndex name.toList = .error (.InvalidCaptureName msgMissingBracket)) ∧
      (∀ pos, name.toList.findIdx? (· == '[') = some pos →
        name.toList.getLast? = some ']' →
        parseUsize ((name.toList.drop (pos + 1)).dropLast) = none →
        fragmentIndex name.toList = .error (.InvalidCaptureName msgNonNumeric)) := by
  intro root name hsplit
  have hone := get_single_capture_single_segment root name hsplit
  refine ⟨?_, ?_, ?_, ?_, ?_, ?_, ?_⟩
  · intro base cs hfrag hget
    rw [hone]
    simp only [resolveFragments, hfrag, hget]
  · intro base i c hfrag hget
    rw [hone]
    simp only [resolveFragments, hfrag, hget]
  · intro base i cs hfrag hget hle
    rw [hone]
    simp only [resolveFragments, hfrag, hget, List.get?_eq_none.mpr hle]
  · intro base index? hfrag hget
    rw [hone]
    simp only [resolveFragments, hfrag, hget]
  · intro e hfrag
    rw [hone]
    simp only [resolveFragments, hfrag]
  · intro pos hfind hlast
    unfold fragmentIndex
    simp only [hfind]
    rw [if_pos hlast]
  · intro pos hfind hlast hparse
    unfold fragmentIndex
    simp only [hfind]
    rw [if_neg (by simp only [ne_eq, not_not]; exact hlast)]
    simp only [hparse]

theorem claim_C7_capture_resolution_errors_witness :
    get_single_capture capC7 "x" = .error (.MisplacedSingleAccess (String.mk ['x'])) ∧
    get_single_capture capC7 "y[0]" = .error (.MisplacedRepeatAccess (String.mk ['y'])) ∧
    get_single_capture capC7 "x[3]" = .error (.OutOfBounds (String.mk ['x']) 3 1) ∧
    get_single_capture capC7 "z" = .error (.NoSuchName (String.mk ['z'])) ∧
    fragmentIndex "x[1".toList = .error (.InvalidCaptureName msgMissingBracket) ∧
    fragmentIndex "x[a]".toList = .error (.InvalidCaptureName msgNonNumeric) :=
  ⟨(claim_C7_capture_resolution_errors capC7 "x" (by rfl)).1 ['x']
      [.mk 0 1 []] (by rfl) (by rfl),
   (claim_C7_capture_resolution_errors capC7 "y[0]" (by rfl)).2.1 ['y'] 0
      (.mk 0 1 []) (by rfl) (by rfl),
   (claim_C7_capture_resolution_errors capC7 "x[3]" (by rfl)).2.2.1 ['x'] 3
      [.mk 0 1 []] (by rfl) (by rfl) (by decide),
   (claim_C7_capture_resolution_errors capC7 "z" (by rfl)).2.2.2.1 ['z'] none
      (by rfl) (by rfl),
   (claim_C7_capture_resolution_errors capC7 "x[1" (by rfl)).2.2.2.2.2.1 1
      (by rfl) (by decide),
   (claim_C7_capture_resolution_errors capC7 "x[a]" (by rfl)).2.2.2.2.2.2 1
      (by rfl) (by rfl) (by rfl)⟩

theorem finalize_ok_shape {name : String} {r r₂ : Reader} {a : Unit}
    (h : finalize_captureM name r = .ok a r₂) :
    ∃ n c, r₂.captures = [(n, Capture.Single c)] := by
  unfold finalize_captureM at h
  split at h
  · split at h
    · cases h
      exact ⟨_, _, rfl⟩
    · exact absurd h (by simp)
  · exact absurd h (by simp)

theorem parseRoot_ok_shape {cr : CalcRegex} {fuel : Nat} {r r₁ : Reader} {a : Unit}
    (h : parseRoot cr fuel r = .ok a r₁) :
    ∃ n c, r₁.captures = [(n, Capture.Single c)] := by
  unfold parseRoot at h
  rcases hn : cr.getNode? cr.root with _ | node
  · rw [hn] at h
    exact absurd h (by simp)
  · simp only [hn] at h
    rcases hm : node.name with _ | name
    · simp only [hm] at h
      exact absurd h (by simp)
    · simp only [hm] at h
      simp only [bindDef] at h
      obtain ⟨a₀, r₀, h₀, h₁⟩ := bind_ok_elim h
      obtain ⟨a₂, r₂, h₂, h₃⟩ := bind_ok_elim h₁
      exact finalize_ok_shape h₃

theorem get_recordM_ok_of_shape {r₁ : Reader} {n : String} {c : SingleCapture}
    (hcap : r₁.captures = [(n, Capture.Single c)]) :
    get_recordM r₁ = .ok { capture := c, data := r₁.input.split_here.1 }
      { input := r₁.input.split_here.2, captures := [] } := by
  unfold get_recordM
  rw [hcap]

theorem is_emptyM_eval (r : Reader) :
    is_emptyM r = .ok (r.input.pos == r.input.input.length) r := rfl

theorem stream_read_next_obs (inp data : Bytes) (pos : Nat) (hs : pos ≤ data.length) :
    (StreamInput.read_next ⟨inp, data, pos⟩).map StreamInput.obs =
      obsReadNext (StreamInput.obs ⟨inp, data, pos⟩) := by
  simp only [StreamInput.read_next, StreamInput.obs]
  by_cases hlt : data.length > pos
  · rw [if_pos hlt]
    simp only [Except.map, StreamInput.obs]
    rw [List.drop_eq_getElem_cons hlt, List.cons_append, obsReadNext,
      List.take_succ, List.getElem?_eq_getElem hlt]
    simp
  · have hpe : pos = data.length := by omega
    subst hpe
    rw [if_neg hlt]
    rcases inp with _ | ⟨b, rest⟩
    · simp [Except.map, obsReadNext, StreamInput.obs]
    · simp [Except.map, obsReadNext, StreamInput.obs,
        List.take_append_eq_append_take, List.drop_append_eq_append_drop]

theorem stream_read_n_obs (inp data : Bytes) (pos : Nat) (hs : pos ≤ data.length)
    (n : Nat) :
    (StreamInput.read_n ⟨inp, data, pos⟩ n).map StreamInput.obs =
      obsReadN n (StreamInput.obs ⟨inp, data, pos⟩) := by
  simp only [StreamInput.read_n, StreamInput.obs, obsReadN]
  by_cases hc : n ≤ data.length - pos
  · rw [if_pos hc, if_pos (by simp; omega)]
    simp only [Except.map, StreamInput.obs, Except.ok.injEq, Prod.mk.injEq,
      eq_self_iff_true, true_and]
    constructor
    · rw [List.take_append_eq_append_take]
      have h0 : n - (data.drop pos).length = 0 := by simp; omega
      rw [h0, List.take_zero, List.append_nil, ← List.take_add]
    · rw [List.drop_append_eq_append_drop]
      have h0 : n - (data.drop pos).length = 0 := by simp; omega
      rw [h0, List.drop_zero, List.drop_drop, Nat.add_comm]
  · rw [if_neg hc]
    by_cases h2 : n - (data.length - pos) ≤ inp.length
    · rw [if_pos h2, if_pos (by simp; omega)]
      simp only [Except.map, StreamInput.obs, Except.ok.injEq, Prod.mk.injEq,
        eq_self_iff_true, true_and]
      have hlen : (data ++ inp.take (n - (data.length - pos))).length = pos + n := by
        simp; omega
      constructor
      · rw [List.take_of_length_le (le_of_eq hlen),
          List.take_append_eq_append_take,
          List.take_of_length_le (by simp; omega : (data.drop pos).length ≤ n)]
        simp [← List.append_assoc]
      · rw [List.drop_eq_nil_of_le (le_of_eq hlen), List.nil_append,
          List.drop_append_eq_append_drop,
          List.drop_eq_nil_of_le (by simp; omega : (data.drop pos).length ≤ n),
          List.nil_append]
        simp
    · rw [if_neg h2, if_neg (by simp; omega)]
      simp [Except.map]

theorem stream_is_empty_obs (inp data : Bytes) (pos : Nat) (hs : pos ≤ data.length) :
    (StreamInput.is_empty ⟨inp, data, pos⟩).map (fun p => (p.1, p.2.obs)) =
      obsIsEmpty (StreamInput.obs ⟨inp, data, pos⟩) := by
  simp only [StreamInput.is_empty, StreamInput.obs, obsIsEmpty]
  by_cases hlt : data.length > pos
  · rw [if_pos hlt]
    simp only [Except.map, StreamInput.obs]
    rw [List.drop_eq_getElem_cons hlt, List.cons_append]
    simp
  · have hpe : pos = data.length := by omega
    subst hpe
    rw [if_neg hlt]
    rcases inp with _ | ⟨b, rest⟩
    · simp [Except.map, StreamInput.obs]
    · simp [Except.map, StreamInput.obs, List.take_append_eq_append_take,
        List.drop_append_eq_append_drop]

theorem stream_is_empty_state (inp data : Bytes) (pos : Nat) (hs : pos ≤ data.length)
    (b : Bool) (t : StreamInput)
    (h : StreamInput.is_empty ⟨inp, data, pos⟩ = .ok (b, t)) :
    t.getPos = StreamInput.getPos ⟨inp, data, pos⟩ ∧
      t.bytes = StreamInput.bytes ⟨inp, data, pos⟩ ∧
      t.obs = StreamInput.obs ⟨inp, data, pos⟩ ∧
      t.pos ≤ t.data.length := by
  simp only [StreamInput.is_empty] at h
  by_cases hlt : data.length > pos
  · rw [if_pos hlt] at h
    simp only [Except.ok.injEq, Prod.mk.injEq] at h
    obtain ⟨hb, ht⟩ := h
    subst ht
    exact ⟨rfl, rfl, rfl, hs⟩
  · have hpe : pos = data.length := by omega
    subst hpe
    rw [if_neg hlt] at h
    rcases inp with _ | ⟨x, rest⟩
    · simp only [Except.ok.injEq, Prod.mk.injEq] at h
      obtain ⟨hb, ht⟩ := h
      subst ht
      exact ⟨rfl, rfl, rfl, hs⟩
    · simp only [Except.ok.injEq, Prod.mk.injEq] at h
      obtain ⟨hb, ht⟩ := h
      subst ht
      refine ⟨rfl, ?_, ?_, by simp⟩
      · simp [StreamInput.bytes, List.take_append_eq_append_take]
      · simp [StreamInput.obs, List.take_append_eq_append_take,
          List.drop_append_eq_append_drop]

theorem stream_split_obs (s : StreamInput) :
    (s.split_here.1, s.split_here.2.obs) = obsSplit s.obs := by
  simp [StreamInput.split_here, StreamInput.obs, obsSplit]

/-- C9: `is_empty` never changes the observable state of either byte source:
the array implementation returns its state verbatim, and the stream
implementation — though it may speculatively buffer one byte — preserves
`pos`, `bytes` and the whole observable content (position, bytes delivered,
bytes still to come); moreover every stream operation factors through that
observable content, so all subsequent parsing behaviour is the same as if
`is_empty` had not been called. -/
theorem claim_C9_is_empty_preserves_observable_state :
    (∀ s : ArrayInput, s.is_empty = .ok ((s.pos == s.input.length), s)) ∧
    (∀ s : StreamInput, s.pos ≤ s.data.length →
      ∀ b t, s.is_empty = .ok (b, t) →
        t.getPos = s.getPos ∧ t.bytes = s.bytes ∧ t.obs = s.obs ∧
          t.pos ≤ t.data.length) ∧
    (∀ s : StreamInput, s.pos ≤ s.data.length →
      s.read_next.map StreamInput.obs = obsReadNext s.obs ∧
      (∀ n, (s.read_n n).map StreamInput.obs = obsReadN n s.obs) ∧
      s.is_empty.map (fun p => (p.1, p.2.obs)) = obsIsEmpty s.obs ∧
      (s.split_here.1, s.split_here.2.obs) = obsSplit s.obs) := by
  refine ⟨fun s => rfl, ?_, ?_⟩
  · intro s hs b t h
    obtain ⟨inp, data, pos⟩ := s
    exact stream_is_empty_state inp data pos hs b t h
  · intro s hs
    obtain ⟨inp, data, pos⟩ := s
    exact ⟨stream_read_next_obs inp data pos hs,
      fun n => stream_read_n_obs inp data pos hs n,
      stream_is_empty_obs inp data pos hs,
      stream_split_obs _⟩

theorem claim_C9_is_empty_preserves_observable_state_witness :
    ArrayInput.is_empty ⟨[1, 2], 0, 1⟩ =
      .ok ((((⟨[1, 2], 0, 1⟩ : ArrayInput).pos ==
        (⟨[1, 2], 0, 1⟩ : ArrayInput).input.length)), ⟨[1, 2], 0, 1⟩) ∧
    (s9a.getPos = s9b.getPos ∧ s9a.bytes = s9b.bytes ∧ s9a.obs = s9b.obs ∧
      s9a.pos ≤ s9a.data.length) ∧
    s9a.read_next.map StreamInput.obs = obsReadNext s9a.obs ∧
    (s9a.read_n 3).map StreamInput.obs = obsReadN 3 s9a.obs ∧
    s9a.is_empty.map (fun p => (p.1, p.2.obs)) = obsIsEmpty s9a.obs ∧
    (s9a.split_here.1, s9a.split_here.2.obs) = obsSplit s9a.obs :=
  ⟨claim_C9_is_empty_preserves_observable_state.1 ⟨[1, 2], 0, 1⟩,
   claim_C9_is_empty_preserves_observable_state.2.1 s9b (by decide) false s9a (by rfl),
   (claim_C9_is_empty_preserves_observable_state.2.2 s9a (by decide)).1,
   (claim_C9_is_empty_preserves_observable_state.2.2 s9a (by decide)).2.1 3,
   (claim_C9_is_empty_preserves_observable_state.2.2 s9a (by decide)).2.2.1,
   (claim_C9_is_empty_preserves_observable_state.2.2 s9a (by decide)).2.2.2⟩

theorem cpu_zero (cr : CalcRegex) (node : Node) :
    CalcRegex.parse_unbounded cr 0 node = divM := rfl

theorem rpu_zero (cr : CalcRegex) (idx : Nat) :
    Reader.parse_unbounded cr 0 idx = divM := rfl

theorem cpe_zero (cr : CalcRegex) (node : Node) (n : Nat) :
    CalcRegex.parse_exact cr 0 node n = divM := rfl

theorem rpe_zero (cr : CalcRegex) (idx n : Nat) :
    Reader.parse_exact cr 0 idx n = divM := rfl

theorem ul_zero (cr : CalcRegex) (idx n : Nat) :
    unboundedLoop cr 0 idx n = divM := rfl

theorem lcParse_spec (input : Bytes) (mr mt : Bytes → Bool) (f : Bytes → Option Nat)
    (fuel : Nat) (rec : Record) (r₂ : Reader)
    (h : Reader.parse (crLC mr mt f) fuel (Reader.from_array input) = .ok rec r₂) :
    ∃ p count,
      p + count = input.length ∧
      f (input.take p) = some count ∧
      rec = { capture := .mk 0 (p + count) (chLC p count), data := input } := by
  unfold Reader.parse at h
  simp only [bindDef] at h
  obtain ⟨a₀, r₁, hroot, h⟩ := bind_ok_elim h
  unfold parseRoot at hroot
  have hn2 : (crLC mr mt f).getNode? (crLC mr mt f).root = some (ndNet f) := rfl
  simp only [hn2, ndNet, bindDef] at hroot
  obtain ⟨u1, s1, h1, hroot⟩ := bind_ok_elim hroot
  rw [show init_captureM "net" (Reader.from_array input) =
    PR.ok () ⟨⟨input, 0, 0⟩, [("net", .Single ⟨0, 0, []⟩)]⟩ from rfl] at h1
  cases h1
  obtain ⟨u2, s2, h2, hroot⟩ := bind_ok_elim hroot
  obtain ⟨fA, rfl⟩ : ∃ k, fuel = k + 1 := by
    rcases fuel with _ | k
    · rw [cpu_zero] at h2
      simp [divM] at h2
    · exact ⟨k, rfl⟩
  simp only [CalcRegex.parse_unbounded, bindDef] at h2
  obtain ⟨pr, sF, hrc, h2⟩ := bind_ok_elim h2
  obtain ⟨a1, count⟩ := pr
  unfold read_count at hrc
  simp only [bindDef] at hrc
  obtain ⟨u3, s3, h3, hrc⟩ := bind_ok_elim hrc
  rw [show start_captureM "$count" ⟨⟨input, 0, 0⟩, [("net", .Single ⟨0, 0, []⟩)]⟩ =
    PR.ok () ⟨⟨input, 0, 0⟩,
      [("$count", .Single ⟨0, 0, []⟩), ("net", .Single ⟨0, 0, []⟩)]⟩ from rfl] at h3
  cases h3
  obtain ⟨sp0, s4, h4, hrc⟩ := bind_ok_elim hrc
  rw [show getPosM ⟨⟨input, 0, 0⟩,
      [("$count", .Single ⟨0, 0, []⟩), ("net", .Single ⟨0, 0, []⟩)]⟩ =
    PR.ok 0 ⟨⟨input, 0, 0⟩,
      [("$count", .Single ⟨0, 0, []⟩), ("net", .Single ⟨0, 0, []⟩)]⟩ from rfl] at h4
  cases h4
  obtain ⟨aCl, sE2, hcl, hrc⟩ := bind_ok_elim hrc
  obtain ⟨cLen, sE3, hru, hcl⟩ := bind_ok_elim hcl
  obtain ⟨fB, rfl⟩ : ∃ k, fA = k + 1 := by
    rcases fA with _ | k
    · rw [rpu_zero] at hru
      simp [divM] at hru
    · exact ⟨k, rfl⟩
  have hn0 : (crLC mr mt f).getNode? 0 = some (ndLen mr) := rfl
  simp only [Reader.parse_unbounded, hn0, ndLen, bindDef] at hru
  obtain ⟨spL, s5, h5, hru⟩ := bind_ok_elim hru
  rw [show getPosM ⟨⟨input, 0, 0⟩,
      [("$count", .Single ⟨0, 0, []⟩), ("net", .Single ⟨0, 0, []⟩)]⟩ =
    PR.ok 0 ⟨⟨input, 0, 0⟩,
      [("$count", .Single ⟨0, 0, []⟩), ("net", .Single ⟨0, 0, []⟩)]⟩ from rfl] at h5
  cases h5
  obtain ⟨u6, s6, h6, hru⟩ := bind_ok_elim hru
  rw [show startNameM (some "len") ⟨⟨input, 0, 0⟩,
      [("$count", .Single ⟨0, 0, []⟩), ("net", .Single ⟨0, 0, []⟩)]⟩ =
    PR.ok () ⟨⟨input, 0, 0⟩,
      [("len", .Single ⟨0, 0, []⟩), ("$count", .Single ⟨0, 0, []⟩),
       ("net", .Single ⟨0, 0, []⟩)]⟩ from rfl] at h6
  cases h6
  obtain ⟨u7, s7, h7, hru⟩ := bind_ok_elim hru
  obtain ⟨fC, rfl⟩ : ∃ k, fB = k + 1 := by
    rcases fB with _ | k
    · rw [cpu_zero] at h7
      simp [divM] at h7
    · exact ⟨k, rfl⟩
  simp only [CalcRegex.parse_unbounded] at h7
  obtain ⟨e₁, e₂, e₃, e₄⟩ := match_regex_unbounded_ok_elim h7
  obtain ⟨⟨di, ds, dp⟩, dc⟩ := s7
  simp only at e₁ e₂ e₄
  subst di
  subst e₂
  subst e₄
  obtain ⟨u8, s8, h8, hru⟩ := bind_ok_elim hru
  rw [show finishNameM (some "len") ⟨⟨input, 0, dp⟩,
      [("len", .Single ⟨0, 0, []⟩), ("$count", .Single ⟨0, 0, []⟩),
       ("net", .Single ⟨0, 0, []⟩)]⟩ =
    PR.ok () ⟨⟨input, 0, dp⟩,
      [("$count", .Single ⟨0, 0, []⟩),
       ("net", .Single ⟨0, 0, [("len", .Single ⟨0, dp, []⟩)]⟩)]⟩ from rfl] at h8
  cases h8
  obtain ⟨epL, s9, h9, hru⟩ := bind_ok_elim hru
  rw [show getPosM ⟨⟨input, 0, dp⟩,
      [("$count", .Single ⟨0, 0, []⟩),
       ("net", .Single ⟨0, 0, [("len", .Single ⟨0, dp, []⟩)]⟩)]⟩ =
    PR.ok dp ⟨⟨input, 0, dp⟩,
      [("$count", .Single ⟨0, 0, []⟩),
       ("net", .Single ⟨0, 0, [("len", .Single ⟨0, dp, []⟩)]⟩)]⟩ from rfl] at h9
  cases h9
  obtain ⟨hv, hs⟩ := pure_ok_elim hru
  subst hv
  subst hs
  obtain ⟨-, hs2⟩ := pure_ok_elim hcl
  subst hs2
  obtain ⟨u10, s10, h10, hrc⟩ := bind_ok_elim hrc
  rw [show finish_captureM "$count" ⟨⟨input, 0, dp⟩,
      [("$count", .Single ⟨0, 0, []⟩),
       ("net", .Single ⟨0, 0, [("len", .Single ⟨0, dp, []⟩)]⟩)]⟩ =
    PR.ok () ⟨⟨input, 0, dp⟩,
      [("net", .Single ⟨0, 0,
        [("len", .Single ⟨0, dp, []⟩),
         ("$count", .Single ⟨0, dp, []⟩)]⟩)]⟩ from rfl] at h10
  cases h10
  obtain ⟨ep2, s11, h11, hrc⟩ := bind_ok_elim hrc
  rw [show getPosM ⟨⟨input, 0, dp⟩,
      [("net", .Single ⟨0, 0,
        [("len", .Single ⟨0, dp, []⟩),
         ("$count", .Single ⟨0, dp, []⟩)]⟩)]⟩ =
    PR.ok dp ⟨⟨input, 0, dp⟩,
      [("net", .Single ⟨0, 0,
        [("len", .Single ⟨0, dp, []⟩),
         ("$count", .Single ⟨0, dp, []⟩)]⟩)]⟩ from rfl] at h11
  cases h11
  obtain ⟨raw, s12, h12, hrc⟩ := bind_ok_elim hrc
  rw [show getRangeM (0, dp) ⟨⟨input, 0, dp⟩,
      [("net", .Single ⟨0, 0,
        [("len", .Single ⟨0, dp, []⟩),
         ("$count", .Single ⟨0, dp, []⟩)]⟩)]⟩ =
    PR.ok ((input.take dp).take dp) ⟨⟨input, 0, dp⟩,
      [("net", .Single ⟨0, 0,
        [("len", .Single ⟨0, dp, []⟩),
         ("$count", .Single ⟨0, dp, []⟩)]⟩)]⟩ from rfl] at h12
  cases h12
  rcases hf : f ((input.take dp).take dp) with _ | cnt
  · simp only [hf] at hrc
    simp [throwM] at hrc
  · simp only [hf] at hrc
    obtain ⟨hpq, hsF⟩ := pure_ok_elim hrc
    injection hpq with hpq1 hpq2
    subst count
    subst hsF
    obtain ⟨u13, s13, h13, h2⟩ := bind_ok_elim h2
    obtain ⟨-, hs13⟩ := pure_ok_elim h13
    subst hs13
    obtain ⟨u14, s14, h14, h2⟩ := bind_ok_elim h2
    rw [show start_captureM "$value" ⟨⟨input, 0, dp⟩,
        [("net", .Single ⟨0, 0,
          [("len", .Single ⟨0, dp, []⟩),
           ("$count", .Single ⟨0, dp, []⟩)]⟩)]⟩ =
      PR.ok () ⟨⟨input, 0, dp⟩,
        [("$value", .Single ⟨dp, 0, []⟩),
         ("net", .Single ⟨0, 0,
          [("len", .Single ⟨0, dp, []⟩),
           ("$count", .Single ⟨0, dp, []⟩)]⟩)]⟩ from rfl] at h14
    cases h14
    obtain ⟨u15, s15, h15, h2⟩ := bind_ok_elim h2
    have hn1 : (crLC mr mt f).getNode? 1 = some (ndPay mt) := rfl
    simp only [Reader.parse_exact, hn1, ndPay, bindDef] at h15
    obtain ⟨u16, s16, h16, h15⟩ := bind_ok_elim h15
    rw [show startNameM (some "pay") ⟨⟨input, 0, dp⟩,
        [("$value", .Single ⟨dp, 0, []⟩),
         ("net", .Single ⟨0, 0,
          [("len", .Single ⟨0, dp, []⟩),
           ("$count", .Single ⟨0, dp, []⟩)]⟩)]⟩ =
      PR.ok () ⟨⟨input, 0, dp⟩,
        [("pay", .Single ⟨dp, 0, []⟩), ("$value", .Single ⟨dp, 0, []⟩),
         ("net", .Single ⟨0, 0,
          [("len", .Single ⟨0, dp, []⟩),
           ("$count", .Single ⟨0, dp, []⟩)]⟩)]⟩ from rfl] at h16
    cases h16
    obtain ⟨u17, s17, h17, h15⟩ := bind_ok_elim h15
    simp only [CalcRegex.parse_exact] at h17
    obtain ⟨g₁, g₂, g₃, g₄, g₅⟩ := match_regex_exact_ok_elim h17
    obtain ⟨⟨ei, es, ep⟩, ec⟩ := s17
    simp only at g₁ g₂ g₃ g₄ g₅
    subst ei
    subst g₂
    subst g₃
    subst g₄
    rw [show finishNameM (some "pay") ⟨⟨input, 0, dp + cnt⟩,
        [("pay", .Single ⟨dp, 0, []⟩), ("$value", .Single ⟨dp, 0, []⟩),
         ("net", .Single ⟨0, 0,
          [("len", .Single ⟨0, dp, []⟩),
           ("$count", .Single ⟨0, dp, []⟩)]⟩)]⟩ =
      PR.ok () ⟨⟨input, 0, dp + cnt⟩,
        [("$value", .Single ⟨dp, 0, []⟩),
         ("net", .Single ⟨0, 0,
          [("len", .Single ⟨0, dp, []⟩),
           ("$count", .Single ⟨0, dp, []⟩),
           ("pay", .Single ⟨dp, dp + cnt, []⟩)]⟩)]⟩ from rfl] at h15
    cases h15
    rw [show finish_captureM "$value" ⟨⟨input, 0, dp + cnt⟩,
        [("$value", .Single ⟨dp, 0, []⟩),
         ("net", .Single ⟨0, 0,
          [("len", .Single ⟨0, dp, []⟩),
           ("$count", .Single ⟨0, dp, []⟩),
           ("pay", .Single ⟨dp, dp + cnt, []⟩)]⟩)]⟩ =
      PR.ok () ⟨⟨input, 0, dp + cnt⟩,
        [("net", .Single ⟨0, 0, chLC dp cnt⟩)]⟩ from rfl] at h2
    cases h2
    rw [show finalize_captureM "net" ⟨⟨input, 0, dp + cnt⟩,
        [("net", .Single ⟨0, 0, chLC dp cnt⟩)]⟩ =
      PR.ok () ⟨⟨input, 0, dp + cnt⟩,
        [("net", .Single ⟨0, dp + cnt, chLC dp cnt⟩)]⟩ from rfl] at hroot
    cases hroot
    obtain ⟨e, r₃, hie, h⟩ := bind_ok_elim h
    rw [is_emptyM_eval] at hie
    cases hie
    replace h : (if (dp + cnt == input.length) = true then get_recordM
        else throwM ParserError.TrailingCharacters) ⟨⟨input, 0, dp + cnt⟩,
          [("net", .Single ⟨0, dp + cnt, chLC dp cnt⟩)]⟩ = PR.ok rec r₂ := h
    rcases hq : dp + cnt == input.length with _ | _
    · rw [hq, if_neg (by simp)] at h
      simp [throwM] at h
    · rw [hq, if_pos rfl] at h
      have hlen : dp + cnt = input.length := by simpa using hq
      rw [show get_recordM ⟨⟨input, 0, dp + cnt⟩,
          [("net", .Single ⟨0, dp + cnt, chLC dp cnt⟩)]⟩ =
        PR.ok ⟨⟨0, dp + cnt, chLC dp cnt⟩, input.take (dp + cnt)⟩
          ⟨⟨input, dp + cnt, dp + cnt⟩, []⟩ from rfl] at h
      cases h
      have htt : (input.take dp).take dp = input.take dp := by
        rw [List.take_take, min_self]
      rw [htt] at hf
      refine ⟨dp, cnt, hlen, hf, ?_⟩
      rw [hlen, List.take_length]

theorem ocLoop_spec (input : Bytes) (mr mt : Bytes → Bool) (f : Bytes → Option Nat)
    (v0 : Nat) (REST2 : List (String × Capture)) :
    ∀ fuel n q nm caps u r',
      ((nm = "" ∧ caps = []) ∨ (nm = "item" ∧ caps ≠ [])) →
      unboundedLoop (crOC mr mt f) fuel 1 n
        ⟨⟨input, 0, q⟩, (nm, .Repeat caps) ::
          ("$value", .Single ⟨v0, 0, []⟩) :: REST2⟩ = .ok u r' →
      ∃ qq nm2 caps2,
        r' = ⟨⟨input, 0, qq⟩, (nm2, .Repeat caps2) ::
          ("$value", .Single ⟨v0, 0, []⟩) :: REST2⟩ ∧
        caps2.length = caps.length + n ∧
        ((nm2 = "" ∧ caps2 = []) ∨ (nm2 = "item" ∧ caps2 ≠ [])) := by
  intro fuel
  induction fuel with
  | zero =>
    intro n q nm caps u r' hrep h
    rw [ul_zero] at h
    simp [divM] at h
  | succ fl ih =>
    intro n q nm caps u r' hrep h
    rcases n with _ | m
    · rw [show unboundedLoop (crOC mr mt f) (fl + 1) 1 0 = ParseM.pure () from rfl] at h
      obtain ⟨-, hs⟩ := pure_ok_elim h
      exact ⟨q, nm, caps, hs.symm, rfl, hrep⟩
    · simp only [unboundedLoop, bindDef] at h
      obtain ⟨c1, sB, hbody, h⟩ := bind_ok_elim h
      obtain ⟨fB, rfl⟩ : ∃ k, fl = k + 1 := by
        rcases fl with _ | k
        · rw [rpu_zero] at hbody
          simp [divM] at hbody
        · exact ⟨k, rfl⟩
      have hn1 : (crOC mr mt f).getNode? 1 = some (ndItem mt) := rfl
      simp only [Reader.parse_unbounded, hn1, ndItem, bindDef] at hbody
      obtain ⟨sp, s1, hA, hbody⟩ := bind_ok_elim hbody
      rw [show getPosM ⟨⟨input, 0, q⟩, (nm, .Repeat caps) ::
          ("$value", .Single ⟨v0, 0, []⟩) :: REST2⟩ =
        PR.ok q ⟨⟨input, 0, q⟩, (nm, .Repeat caps) ::
          ("$value", .Single ⟨v0, 0, []⟩) :: REST2⟩ from rfl] at hA
      cases hA
      obtain ⟨u2, s2, hB, hbody⟩ := bind_ok_elim hbody
      rw [show startNameM (some "item") ⟨⟨input, 0, q⟩, (nm, .Repeat caps) ::
          ("$value", .Single ⟨v0, 0, []⟩) :: REST2⟩ =
        PR.ok () ⟨⟨input, 0, q⟩, ("item", .Single ⟨q, 0, []⟩) ::
          (nm, .Repeat caps) ::
          ("$value", .Single ⟨v0, 0, []⟩) :: REST2⟩ from rfl] at hB
      cases hB
      obtain ⟨u3, s3, hC, hbody⟩ := bind_ok_elim hbody
      obtain ⟨fC, rfl⟩ : ∃ k, fB = k + 1 := by
        rcases fB with _ | k
        · rw [cpu_zero] at hC
          simp [divM] at hC
        · exact ⟨k, rfl⟩
      simp only [CalcRegex.parse_unbounded] at hC
      obtain ⟨e₁, e₂, e₃, e₄⟩ := match_regex_unbounded_ok_elim hC
      obtain ⟨⟨di, ds, dq⟩, dc⟩ := s3
      simp only at e₁ e₂ e₄
      subst di
      subst e₂
      subst e₄
      obtain ⟨u4, s4, hD, hbody⟩ := bind_ok_elim hbody
      rcases hrep with ⟨hnm, hcaps⟩ | ⟨hnm, hcaps⟩
      · subst hnm
        subst hcaps
        rw [show finishNameM (some "item") ⟨⟨input, 0, dq⟩,
            ("item", .Single ⟨q, 0, []⟩) :: ("", .Repeat []) ::
            ("$value", .Single ⟨v0, 0, []⟩) :: REST2⟩ =
          PR.ok () ⟨⟨input, 0, dq⟩, ("item", .Repeat [⟨q, dq, []⟩]) ::
            ("$value", .Single ⟨v0, 0, []⟩) :: REST2⟩ from rfl] at hD
        cases hD
        obtain ⟨ep, s5, hE, hbody⟩ := bind_ok_elim hbody
        rw [show getPosM ⟨⟨input, 0, dq⟩, ("item", .Repeat [⟨q, dq, []⟩]) ::
            ("$value", .Single ⟨v0, 0, []⟩) :: REST2⟩ =
          PR.ok dq ⟨⟨input, 0, dq⟩, ("item", .Repeat [⟨q, dq, []⟩]) ::
            ("$value", .Single ⟨v0, 0, []⟩) :: REST2⟩ from rfl] at hE
        cases hE
        obtain ⟨hv, hs5⟩ := pure_ok_elim hbody
        subst hv
        subst hs5
        obtain ⟨qq, nm2, caps2, hr, hlen2, hrep2⟩ :=
          ih m dq "item" [⟨q, dq, []⟩] u r' (Or.inr ⟨rfl, by simp⟩) h
        refine ⟨qq, nm2, caps2, hr, ?_, hrep2⟩
        simp only [List.length_singleton, List.length_nil] at hlen2 ⊢
        omega
      · subst hnm
        rcases caps with _ | ⟨c0, cs⟩
        · exact absurd rfl hcaps
        rw [show finishNameM (some "item") ⟨⟨input, 0, dq⟩,
            ("item", .Single ⟨q, 0, []⟩) :: ("item", .Repeat (c0 :: cs)) ::
            ("$value", .Single ⟨v0, 0, []⟩) :: REST2⟩ =
          PR.ok () ⟨⟨input, 0, dq⟩,
            ("item", .Repeat ((c0 :: cs) ++ [⟨q, dq, []⟩])) ::
            ("$value", .Single ⟨v0, 0, []⟩) :: REST2⟩ from rfl] at hD
        cases hD
        obtain ⟨ep, s5, hE, hbody⟩ := bind_ok_elim hbody
        rw [show getPosM ⟨⟨input, 0, dq⟩,
            ("item", .Repeat ((c0 :: cs) ++ [⟨q, dq, []⟩])) ::
            ("$value", .Single ⟨v0, 0, []⟩) :: REST2⟩ =
          PR.ok dq ⟨⟨input, 0, dq⟩,
            ("item", .Repeat ((c0 :: cs) ++ [⟨q, dq, []⟩])) ::
            ("$value", .Single ⟨v0, 0, []⟩) :: REST2⟩ from rfl] at hE
        cases hE
        obtain ⟨hv, hs5⟩ := pure_ok_elim hbody
        subst hv
        subst hs5
        obtain ⟨qq, nm2, caps2, hr, hlen2, hrep2⟩ :=
          ih m dq "item" ((c0 :: cs) ++ [⟨q, dq, []⟩]) u r' (Or.inr ⟨rfl, by simp⟩) h
        refine ⟨qq, nm2, caps2, hr, ?_, hrep2⟩
        simp only [List.length_append, List.length_cons, List.length_singleton,
          List.length_nil] at hlen2 ⊢
        omega

theorem ocParse_spec (input : Bytes) (mr mt : Bytes → Bool) (f : Bytes → Option Nat)
    (fuel : Nat) (rec : Record) (r₂ : Reader)
    (h : Reader.parse (crOC mr mt f) fuel (Reader.from_array input) = .ok rec r₂) :
    ∃ p count nm2 caps2,
      f (input.take p) = some count ∧
      caps2.length = count ∧
      ((nm2 = "" ∧ caps2 = []) ∨ (nm2 = "item" ∧ caps2 ≠ [])) ∧
      rec = { capture := .mk 0 input.length
                [("cnt", .Single ⟨0, p, []⟩), ("$count", .Single ⟨0, p, []⟩),
                 (nm2, .Repeat caps2), ("$value", .Single ⟨p, input.length, []⟩)],
              data := input } := by
  unfold Reader.parse at h
  simp only [bindDef] at h
  obtain ⟨a₀, r₁, hroot, h⟩ := bind_ok_elim h
  unfold parseRoot at hroot
  have hn2 : (crOC mr mt f).getNode? (crOC mr mt f).root = some (ndSeq f) := rfl
  simp only [hn2, ndSeq, bindDef] at hroot
  obtain ⟨u1, s1, h1, hroot⟩ := bind_ok_elim hroot
  rw [show init_captureM "seq" (Reader.from_array input) =
    PR.ok () ⟨⟨input, 0, 0⟩, [("seq", .Single ⟨0, 0, []⟩)]⟩ from rfl] at h1
  cases h1
  obtain ⟨u2, s2, h2, hroot⟩ := bind_ok_elim hroot
  obtain ⟨fA, rfl⟩ : ∃ k, fuel = k + 1 := by
    rcases fuel with _ | k
    · rw [cpu_zero] at h2
      simp [divM] at h2
    · exact ⟨k, rfl⟩
  simp only [CalcRegex.parse_unbounded, bindDef] at h2
  obtain ⟨pr, sF, hrc, h2⟩ := bind_ok_elim h2
  obtain ⟨a1, count⟩ := pr
  unfold read_count at hrc
  simp only [bindDef] at hrc
  obtain ⟨u3, s3, h3, hrc⟩ := bind_ok_elim hrc
  rw [show start_captureM "$count" ⟨⟨input, 0, 0⟩, [("seq", .Single ⟨0, 0, []⟩)]⟩ =
    PR.ok () ⟨⟨input, 0, 0⟩,
      [("$count", .Single ⟨0, 0, []⟩), ("seq", .Single ⟨0, 0, []⟩)]⟩ from rfl] at h3
  cases h3
  obtain ⟨sp0, s4, h4, hrc⟩ := bind_ok_elim hrc
  rw [show getPosM ⟨⟨input, 0, 0⟩,
      [("$count", .Single ⟨0, 0, []⟩), ("seq", .Single ⟨0, 0, []⟩)]⟩ =
    PR.ok 0 ⟨⟨input, 0, 0⟩,
      [("$count", .Single ⟨0, 0, []⟩), ("seq", .Single ⟨0, 0, []⟩)]⟩ from rfl] at h4
  cases h4
  obtain ⟨aCl, sE2, hcl, hrc⟩ := bind_ok_elim hrc
  obtain ⟨cLen, sE3, hru, hcl⟩ := bind_ok_elim hcl
  obtain ⟨fB, rfl⟩ : ∃ k, fA = k + 1 := by
    rcases fA with _ | k
    · rw [rpu_zero] at hru
      simp [divM] at hru
    · exact ⟨k, rfl⟩
  have hn0 : (crOC mr mt f).getNode? 0 = some (ndCnt mr) := rfl
  simp only [Reader.parse_unbounded, hn0, ndCnt, bindDef] at hru
  obtain ⟨spL, s5, h5, hru⟩ := bind_ok_elim hru
  rw [show getPosM ⟨⟨input, 0, 0⟩,
      [("$count", .Single ⟨0, 0, []⟩), ("seq", .Single ⟨0, 0, []⟩)]⟩ =
    PR.ok 0 ⟨⟨input, 0, 0⟩,
      [("$count", .Single ⟨0, 0, []⟩), ("seq", .Single ⟨0, 0, []⟩)]⟩ from rfl] at h5
  cases h5
  obtain ⟨u6, s6, h6, hru⟩ := bind_ok_elim hru
  rw [show startNameM (some "cnt") ⟨⟨input, 0, 0⟩,
      [("$count", .Single ⟨0, 0, []⟩), ("seq", .Single ⟨0, 0, []⟩)]⟩ =
    PR.ok () ⟨⟨input, 0, 0⟩,
      [("cnt", .Single ⟨0, 0, []⟩), ("$count", .Single ⟨0, 0, []⟩),
       ("seq", .Single ⟨0, 0, []⟩)]⟩ from rfl] at h6
  cases h6
  obtain ⟨u7, s7, h7, hru⟩ := bind_ok_elim hru
  obtain ⟨fC, rfl⟩ : ∃ k, fB = k + 1 := by
    rcases fB with _ | k
    · rw [cpu_zero] at h7
      simp [divM] at h7
    · exact ⟨k, rfl⟩
  simp only [CalcRegex.parse_unbounded] at h7
  obtain ⟨e₁, e₂, e₃, e₄⟩ := match_regex_unbounded_ok_elim h7
  obtain ⟨⟨di, ds, dp⟩, dc⟩ := s7
  simp only at e₁ e₂ e₄
  subst di
  subst e₂
  subst e₄
  obtain ⟨u8, s8, h8, hru⟩ := bind_ok_elim hru
  rw [show finishNameM (some "cnt") ⟨⟨input, 0, dp⟩,
      [("cnt", .Single ⟨0, 0, []⟩), ("$count", .Single ⟨0, 0, []⟩),
       ("seq", .Single ⟨0, 0, []⟩)]⟩ =
    PR.ok () ⟨⟨input, 0, dp⟩,
      [("$count", .Single ⟨0, 0, []⟩),
       ("seq", .Single ⟨0, 0, [("cnt", .Single ⟨0, dp, []⟩)]⟩)]⟩ from rfl] at h8
  cases h8
  obtain ⟨epL, s9, h9, hru⟩ := bind_ok_elim hru
  rw [show getPosM ⟨⟨input, 0, dp⟩,
      [("$count", .Single ⟨0, 0, []⟩),
       ("seq", .Single ⟨0, 0, [("cnt", .Single ⟨0, dp, []⟩)]⟩)]⟩ =
    PR.ok dp ⟨⟨input, 0, dp⟩,
      [("$count", .Single ⟨0, 0, []⟩),
       ("seq", .Single ⟨0, 0, [("cnt", .Single ⟨0, dp, []⟩)]⟩)]⟩ from rfl] at h9
  cases h9
  obtain ⟨hv, hs⟩ := pure_ok_elim hru
  subst hv
  subst hs
  obtain ⟨-, hs2⟩ := pure_ok_elim hcl
  subst hs2
  obtain ⟨u10, s10, h10, hrc⟩ := bind_ok_elim hrc
  rw [show finish_captureM "$count" ⟨⟨input, 0, dp⟩,
      [("$count", .Single ⟨0, 0, []⟩),
       ("seq", .Single ⟨0, 0, [("cnt", .Single ⟨0, dp, []⟩)]⟩)]⟩ =
    PR.ok () ⟨⟨input, 0, dp⟩,
      [("seq", .Single ⟨0, 0,
        [("cnt", .Single ⟨0, dp, []⟩),
         ("$count", .Single ⟨0, dp, []⟩)]⟩)]⟩ from rfl] at h10
  cases h10
  obtain ⟨ep2, s11, h11, hrc⟩ := bind_ok_elim hrc
  rw [show getPosM ⟨⟨input, 0, dp⟩,
      [("seq", .Single ⟨0, 0,
        [("cnt", .Single ⟨0, dp, []⟩),
         ("$count", .Single ⟨0, dp, []⟩)]⟩)]⟩ =
    PR.ok dp ⟨⟨input, 0, dp⟩,
      [("seq", .Single ⟨0, 0,
        [("cnt", .Single ⟨0, dp, []⟩),
         ("$count", .Single ⟨0, dp, []⟩)]⟩)]⟩ from rfl] at h11
  cases h11
  obtain ⟨raw, s12, h12, hrc⟩ := bind_ok_elim hrc
  rw [show getRangeM (0, dp) ⟨⟨input, 0, dp⟩,
      [("seq", .Single ⟨0, 0,
        [("cnt", .Single ⟨0, dp, []⟩),
         ("$count", .Single ⟨0, dp, []⟩)]⟩)]⟩ =
    PR.ok ((input.take dp).take dp) ⟨⟨input, 0, dp⟩,
      [("seq", .Single ⟨0, 0,
        [("cnt", .Single ⟨0, dp, []⟩),
         ("$count", .Single ⟨0, dp, []⟩)]⟩)]⟩ from rfl] at h12
  cases h12
  rcases hf : f ((input.take dp).take dp) with _ | cnt
  · simp only [hf] at hrc
    simp [throwM] at hrc
  · simp only [hf] at hrc
    obtain ⟨hpq, hsF⟩ := pure_ok_elim hrc
    injection hpq with hpq1 hpq2
    subst count
    subst hsF
    obtain ⟨u13, s13, h13, h2⟩ := bind_ok_elim h2
    obtain ⟨-, hs13⟩ := pure_ok_elim h13
    subst hs13
    obtain ⟨u14, s14, h14, h2⟩ := bind_ok_elim h2
    rw [show start_captureM "$value" ⟨⟨input, 0, dp⟩,
        [("seq", .Single ⟨0, 0,
          [("cnt", .Single ⟨0, dp, []⟩),
           ("$count", .Single ⟨0, dp, []⟩)]⟩)]⟩ =
      PR.ok () ⟨⟨input, 0, dp⟩,
        [("$value", .Single ⟨dp, 0, []⟩),
         ("seq", .Single ⟨0, 0,
          [("cnt", .Single ⟨0, dp, []⟩),
           ("$count", .Single ⟨0, dp, []⟩)]⟩)]⟩ from rfl] at h14
    cases h14
    obtain ⟨u15, s15, h15, h2⟩ := bind_ok_elim h2
    rw [show start_repeatM ⟨⟨input, 0, dp⟩,
        [("$value", .Single ⟨dp, 0, []⟩),
         ("seq", .Single ⟨0, 0,
          [("cnt", .Single ⟨0, dp, []⟩),
           ("$count", .Single ⟨0, dp, []⟩)]⟩)]⟩ =
      PR.ok () ⟨⟨input, 0, dp⟩,
        ("", .Repeat []) :: ("$value", .Single ⟨dp, 0, []⟩) ::
        [("seq", .Single ⟨0, 0,
          [("cnt", .Single ⟨0, dp, []⟩),
           ("$count", .Single ⟨0, dp, []⟩)]⟩)]⟩ from rfl] at h15
    cases h15
    obtain ⟨u16, s16, hloop, h2⟩ := bind_ok_elim h2
    obtain ⟨qq, nm2, caps2, hr, hlen2, hrep2⟩ :=
      ocLoop_spec input mr mt f dp
        [("seq", .Single ⟨0, 0,
          [("cnt", .Single ⟨0, dp, []⟩), ("$count", .Single ⟨0, dp, []⟩)]⟩)]
        (fC + 1 + 1) cnt dp "" [] u16 s16 (Or.inl ⟨rfl, rfl⟩) hloop
    subst hr
    obtain ⟨u17, s17, h17, h2⟩ := bind_ok_elim h2
    rcases hrep2 with ⟨hnm2, hcaps2⟩ | ⟨hnm2, hcaps2⟩
    · subst hnm2
      subst hcaps2
      rw [show finish_repeatM ⟨⟨input, 0, qq⟩, ("", .Repeat []) ::
          ("$value", .Single ⟨dp, 0, []⟩) ::
          [("seq", .Single ⟨0, 0,
            [("cnt", .Single ⟨0, dp, []⟩),
             ("$count", .Single ⟨0, dp, []⟩)]⟩)]⟩ =
        PR.ok () ⟨⟨input, 0, qq⟩,
          [("$value", .Single ⟨dp, 0, []⟩),
           ("seq", .Single ⟨0, 0,
            [("cnt", .Single ⟨0, dp, []⟩),
             ("$count", .Single ⟨0, dp, []⟩),
             ("", .Repeat [])]⟩)]⟩ from rfl] at h17
      cases h17
      rw [show finish_captureM "$value" ⟨⟨input, 0, qq⟩,
          [("$value", .Single ⟨dp, 0, []⟩),
           ("seq", .Single ⟨0, 0,
            [("cnt", .Single ⟨0, dp, []⟩),
             ("$count", .Single ⟨0, dp, []⟩),
             ("", .Repeat [])]⟩)]⟩ =
        PR.ok () ⟨⟨input, 0, qq⟩,
          [("seq", .Single ⟨0, 0,
            [("cnt", .Single ⟨0, dp, []⟩),
             ("$count", .Single ⟨0, dp, []⟩),
             ("", .Repeat []),
             ("$value", .Single ⟨dp, qq, []⟩)]⟩)]⟩ from rfl] at h2
      cases h2
      rw [show finalize_captureM "seq" ⟨⟨input, 0, qq⟩,
          [("seq", .Single ⟨0, 0,
            [("cnt", .Single ⟨0, dp, []⟩),
             ("$count", .Single ⟨0, dp, []⟩),
             ("", .Repeat []),
             ("$value", .Single ⟨dp, qq, []⟩)]⟩)]⟩ =
        PR.ok () ⟨⟨input, 0, qq⟩,
          [("seq", .Single ⟨0, qq,
            [("cnt", .Single ⟨0, dp, []⟩),
             ("$count", .Single ⟨0, dp, []⟩),
             ("", .Repeat []),
             ("$value", .Single ⟨dp, qq, []⟩)]⟩)]⟩ from rfl] at hroot
      cases hroot
      obtain ⟨e, r₃, hie, h⟩ := bind_ok_elim h
      rw [is_emptyM_eval] at hie
      cases hie
      replace h : (if (qq == input.length) = true then get_recordM
          else throwM ParserError.TrailingCharacters) ⟨⟨input, 0, qq⟩,
            [("seq", .Single ⟨0, qq,
              [("cnt", .Single ⟨0, dp, []⟩),
               ("$count", .Single ⟨0, dp, []⟩),
               ("", .Repeat []),
               ("$value", .Single ⟨dp, qq, []⟩)]⟩)]⟩ = PR.ok rec r₂ := h
      rcases hq : qq == input.length with _ | _
      · rw [hq, if_neg (by simp)] at h
        simp [throwM] at h
      · rw [hq, if_pos rfl] at h
        have hlen : qq = input.length := by simpa using hq
        rw [show get_recordM ⟨⟨input, 0, qq⟩,
            [("seq", .Single ⟨0, qq,
              [("cnt", .Single ⟨0, dp, []⟩),
               ("$count", .Single ⟨0, dp, []⟩),
               ("", .Repeat []),
               ("$value", .Single ⟨dp, qq, []⟩)]⟩)]⟩ =
          PR.ok ⟨⟨0, qq,
              [("cnt", .Single ⟨0, dp, []⟩),
               ("$count", .Single ⟨0, dp, []⟩),
               ("", .Repeat []),
               ("$value", .Single ⟨dp, qq, []⟩)]⟩, input.take qq⟩
            ⟨⟨input, qq, qq⟩, []⟩ from rfl] at h
        cases h
        have htt : (input.take dp).take dp = input.take dp := by
          rw [List.take_take, min_self]
        rw [htt] at hf
        refine ⟨dp, cnt, "", [], hf, ?_, Or.inl ⟨rfl, rfl⟩, ?_⟩
        · simpa using hlen2
        · rw [hlen, List.take_length]
    · subst hnm2
      rw [show finish_repeatM ⟨⟨input, 0, qq⟩, ("item", .Repeat caps2) ::
          ("$value", .Single ⟨dp, 0, []⟩) ::
          [("seq", .Single ⟨0, 0,
            [("cnt", .Single ⟨0, dp, []⟩),
             ("$count", .Single ⟨0, dp, []⟩)]⟩)]⟩ =
        PR.ok () ⟨⟨input, 0, qq⟩,
          [("$value", .Single ⟨dp, 0, []⟩),
           ("seq", .Single ⟨0, 0,
            [("cnt", .Single ⟨0, dp, []⟩),
             ("$count", .Single ⟨0, dp, []⟩),
             ("item", .Repeat caps2)]⟩)]⟩ from rfl] at h17
      cases h17
      rw [show finish_captureM "$value" ⟨⟨input, 0, qq⟩,
          [("$value", .Single ⟨dp, 0, []⟩),
           ("seq", .Single ⟨0, 0,
            [("cnt", .Single ⟨0, dp, []⟩),
             ("$count", .Single ⟨0, dp, []⟩),
             ("item", .Repeat caps2)]⟩)]⟩ =
        PR.ok () ⟨⟨input, 0, qq⟩,
          [("seq", .Single ⟨0, 0,
            [("cnt", .Single ⟨0, dp, []⟩),
             ("$count", .Single ⟨0, dp, []⟩),
             ("item", .Repeat caps2),
             ("$value", .Single ⟨dp, qq, []⟩)]⟩)]⟩ from rfl] at h2
      cases h2
      rw [show finalize_captureM "seq" ⟨⟨input, 0, qq⟩,
          [("seq", .Single ⟨0, 0,
            [("cnt", .Single ⟨0, dp, []⟩),
             ("$count", .Single ⟨0, dp, []⟩),
             ("item", .Repeat caps2),
             ("$value", .Single ⟨dp, qq, []⟩)]⟩)]⟩ =
        PR.ok () ⟨⟨input, 0, qq⟩,
          [("seq", .Single ⟨0, qq,
            [("cnt", .Single ⟨0, dp, []⟩),
             ("$count", .Single ⟨0, dp, []⟩),
             ("item", .Repeat caps2),
             ("$value", .Single ⟨dp, qq, []⟩)]⟩)]⟩ from rfl] at hroot
      cases hroot
      obtain ⟨e, r₃, hie, h⟩ := bind_ok_elim h
      rw [is_emptyM_eval] at hie
      cases hie
      replace h : (if (qq == input.length) = true then get_recordM
          else throwM ParserError.TrailingCharacters) ⟨⟨input, 0, qq⟩,
            [("seq", .Single ⟨0, qq,
              [("cnt", .Single ⟨0, dp, []⟩),
               ("$count", .Single ⟨0, dp, []⟩),
               ("item", .Repeat caps2),
               ("$value", .Single ⟨dp, qq, []⟩)]⟩)]⟩ = PR.ok rec r₂ := h
      rcases hq : qq == input.length with _ | _
      · rw [hq, if_neg (by simp)] at h
        simp [throwM] at h
      · rw [hq, if_pos rfl] at h
        have hlen : qq = input.length := by simpa using hq
        rw [show get_recordM ⟨⟨input, 0, qq⟩,
            [("seq", .Single ⟨0, qq,
              [("cnt", .Single ⟨0, dp, []⟩),
               ("$count", .Single ⟨0, dp, []⟩),
               ("item", .Repeat caps2),
               ("$value", .Single ⟨dp, qq, []⟩)]⟩)]⟩ =
          PR.ok ⟨⟨0, qq,
              [("cnt", .Single ⟨0, dp, []⟩),
               ("$count", .Single ⟨0, dp, []⟩),
               ("item", .Repeat caps2),
               ("$value", .Single ⟨dp, qq, []⟩)]⟩, input.take qq⟩
            ⟨⟨input, qq, qq⟩, []⟩ from rfl] at h
        cases h
        have htt : (input.take dp).take dp = input.take dp := by
          rw [List.take_take, min_self]
        rw [htt] at hf
        refine ⟨dp, cnt, "item", caps2, hf, ?_, Or.inr ⟨rfl, hcaps2⟩, ?_⟩
        · simpa using hlen2
        · rw [hlen, List.take_length]

/-- C6: on a counted-production scope the synthetic names `$count` and
`$value` are both queryable after a successful parse — `$count` spanning
exactly the count sub-expression's bytes and `$value` exactly the target's
bytes (all repetitions, for `OccurrenceCount`) — and the count
sub-expression's own node name resolves in the production's scope as a
sibling alias of `$count`, not nested underneath it (`"$count.len"` /
`"$count.cnt"` is `NoSuchName`).  Proved for a representative length-counted
grammar (`crLC`: counter `len`, payload `pay`) and occurrence-counted
grammar (`crOC`: counter `cnt`, item `item`), universally over inputs,
matchers, decoders, and fuel. -/
theorem claim_C6_counted_scope_captures :
    (∀ (input : Bytes) (mr mt : Bytes → Bool) (f : Bytes → Option Nat)
        (fuel : Nat) (rec : Record) (r₂ : Reader),
      Reader.parse (crLC mr mt f) fuel (Reader.from_array input) = .ok rec r₂ →
      ∃ p count, p + count = input.length ∧
        f (input.take p) = some count ∧
        rec.data = input ∧
        rec.get_capture "$count" = .ok (input.take p) ∧
        rec.get_capture "len" = .ok (input.take p) ∧
        rec.get_capture "$value" = .ok (input.drop p) ∧
        rec.get_capture "pay" = .ok (input.drop p) ∧
        rec.get_capture "$count.len" = .error (.NoSuchName "len")) ∧
    (∀ (input : Bytes) (mr mt : Bytes → Bool) (f : Bytes → Option Nat)
        (fuel : Nat) (rec : Record) (r₂ : Reader),
      Reader.parse (crOC mr mt f) fuel (Reader.from_array input) = .ok rec r₂ →
      ∃ p count,
        f (input.take p) = some count ∧
        rec.data = input ∧
        rec.get_capture "$count" = .ok (input.take p) ∧
        rec.get_capture "cnt" = .ok (input.take p) ∧
        rec.get_capture "$value" = .ok (input.drop p) ∧
        rec.get_capture "$count.cnt" = .error (.NoSuchName "cnt") ∧
        (1 ≤ count → ∃ reps, alGet "item" rec.capture.children =
          some (.Repeat reps) ∧ reps.length = count)) := by
  constructor
  · intro input mr mt f fuel rec r₂ h
    obtain ⟨p, count, hpl, hfeq, hrec⟩ := lcParse_spec input mr mt f fuel rec r₂ h
    subst hrec
    refine ⟨p, count, hpl, hfeq, rfl, ?_, ?_, ?_, ?_, ?_⟩
    · have hg : get_single_capture ⟨0, p + count, chLC p count⟩ "$count" =
        .ok ⟨0, p, []⟩ := rfl
      simp only [Record.get_capture, hg]
      rfl
    · have hg : get_single_capture ⟨0, p + count, chLC p count⟩ "len" =
        .ok ⟨0, p, []⟩ := rfl
      simp only [Record.get_capture, hg]
      rfl
    · have hg : get_single_capture ⟨0, p + count, chLC p count⟩ "$value" =
        .ok ⟨p, p + count, []⟩ := rfl
      simp only [Record.get_capture, hg, SingleCapture.start_pos, SingleCapture.end_pos]
      have h1 : p + count - p = count := by omega
      simp only [sliceRange, h1]
      rw [List.take_of_length_le (by simp; omega)]
    · have hg : get_single_capture ⟨0, p + count, chLC p count⟩ "pay" =
        .ok ⟨p, p + count, []⟩ := rfl
      simp only [Record.get_capture, hg, SingleCapture.start_pos, SingleCapture.end_pos]
      have h1 : p + count - p = count := by omega
      simp only [sliceRange, h1]
      rw [List.take_of_length_le (by simp; omega)]
    · have hg : get_single_capture ⟨0, p + count, chLC p count⟩ "$count.len" =
        .error (.NoSuchName "len") := rfl
      simp only [Record.get_capture, hg]
  · intro input mr mt f fuel rec r₂ h
    obtain ⟨p, count, nm2, caps2, hfeq, hclen, hrep, hrec⟩ :=
      ocParse_spec input mr mt f fuel rec r₂ h
    subst hrec
    rcases hrep with ⟨hnm2, hcaps2⟩ | ⟨hnm2, hcaps2⟩
    · subst hnm2
      subst hcaps2
      refine ⟨p, count, hfeq, rfl, ?_, ?_, ?_, ?_, ?_⟩
      · have hg : get_single_capture ⟨0, input.length,
            [("cnt", .Single ⟨0, p, []⟩), ("$count", .Single ⟨0, p, []⟩),
             ("", .Repeat []), ("$value", .Single ⟨p, input.length, []⟩)]⟩
            "$count" = .ok ⟨0, p, []⟩ := rfl
        simp only [Record.get_capture, hg]
        rfl
      · have hg : get_single_capture ⟨0, input.length,
            [("cnt", .Single ⟨0, p, []⟩), ("$count", .Single ⟨0, p, []⟩),
             ("", .Repeat []), ("$value", .Single ⟨p, input.length, []⟩)]⟩
            "cnt" = .ok ⟨0, p, []⟩ := rfl
        simp only [Record.get_capture, hg]
        rfl
      · have hg : get_single_capture ⟨0, input.length,
            [("cnt", .Single ⟨0, p, []⟩), ("$count", .Single ⟨0, p, []⟩),
             ("", .Repeat []), ("$value", .Single ⟨p, input.length, []⟩)]⟩
            "$value" = .ok ⟨p, input.length, []⟩ := rfl
        simp only [Record.get_capture, hg, SingleCapture.start_pos, SingleCapture.end_pos]
        simp only [sliceRange]
        rw [List.take_of_length_le (by simp)]
      · have hg : get_single_capture ⟨0, input.length,
            [("cnt", .Single ⟨0, p, []⟩), ("$count", .Single ⟨0, p, []⟩),
             ("", .Repeat []), ("$value", .Single ⟨p, input.length, []⟩)]⟩
            "$count.cnt" = .error (.NoSuchName "cnt") := rfl
        simp only [Record.get_capture, hg]
      · intro hk
        simp only [List.length_nil] at hclen
        exact absurd hk (by omega)
    · subst hnm2
      refine ⟨p, count, hfeq, rfl, ?_, ?_, ?_, ?_, ?_⟩
      · have hg : get_single_capture ⟨0, input.length,
            [("cnt", .Single ⟨0, p, []⟩), ("$count", .Single ⟨0, p, []⟩),
             ("item", .Repeat caps2), ("$value", .Single ⟨p, input.length, []⟩)]⟩
            "$count" = .ok ⟨0, p, []⟩ := rfl
        simp only [Record.get_capture, hg]
        rfl
      · have hg : get_single_capture ⟨0, input.length,
            [("cnt", .Single ⟨0, p, []⟩), ("$count", .Single ⟨0, p, []⟩),
             ("item", .Repeat caps2), ("$value", .Single ⟨p, input.length, []⟩)]⟩
            "cnt" = .ok ⟨0, p, []⟩ := rfl
        simp only [Record.get_capture, hg]
        rfl
      · have hg : get_single_capture ⟨0, input.length,
            [("cnt", .Single ⟨0, p, []⟩), ("$count", .Single ⟨0, p, []⟩),
             ("item", .Repeat caps2), ("$value", .Single ⟨p, input.length, []⟩)]⟩
            "$value" = .ok ⟨p, input.length, []⟩ := rfl
        simp only [Record.get_capture, hg, SingleCapture.start_pos, SingleCapture.end_pos]
        simp only [sliceRange]
        rw [List.take_of_length_le (by simp)]
      · have hg : get_single_capture ⟨0, input.length,
            [("cnt", .Single ⟨0, p, []⟩), ("$count", .Single ⟨0, p, []⟩),
             ("item", .Repeat caps2), ("$value", .Single ⟨p, input.length, []⟩)]⟩
            "$count.cnt" = .error (.NoSuchName "cnt") := rfl
        simp only [Record.get_capture, hg]
      · intro hk
        exact ⟨caps2, rfl, hclen⟩

theorem claim_C6_counted_scope_captures_witness :
    (∃ p count, p + count = ([51, 102, 111, 111] : Bytes).length ∧
      dec3 (List.take p [51, 102, 111, 111]) = some count ∧
      Record.data recC6lc = [51, 102, 111, 111] ∧
      recC6lc.get_capture "$count" = .ok (List.take p [51, 102, 111, 111]) ∧
      recC6lc.get_capture "len" = .ok (List.take p [51, 102, 111, 111]) ∧
      recC6lc.get_capture "$value" = .ok (List.drop p [51, 102, 111, 111]) ∧
      recC6lc.get_capture "pay" = .ok (List.drop p [51, 102, 111, 111]) ∧
      recC6lc.get_capture "$count.len" = .error (.NoSuchName "len")) ∧
    (∃ p count,
      dec2 (List.take p [50, 97, 98]) = some count ∧
      Record.data recC6oc = [50, 97, 98] ∧
      recC6oc.get_capture "$count" = .ok (List.take p [50, 97, 98]) ∧
      recC6oc.get_capture "cnt" = .ok (List.take p [50, 97, 98]) ∧
      recC6oc.get_capture "$value" = .ok (List.drop p [50, 97, 98]) ∧
      recC6oc.get_capture "$count.cnt" = .error (.NoSuchName "cnt") ∧
      (1 ≤ count → ∃ reps, alGet "item" recC6oc.capture.children =
        some (.Repeat reps) ∧ reps.length = count)) :=
  ⟨claim_C6_counted_scope_captures.1 [51, 102, 111, 111] mr3 mtAny dec3 10
      recC6lc ⟨⟨[51, 102, 111, 111], 4, 4⟩, []⟩ (by rfl),
   claim_C6_counted_scope_captures.2 [50, 97, 98] mr2 mt1 dec2 10
      recC6oc ⟨⟨[50, 97, 98], 3, 3⟩, []⟩ (by rfl)⟩

/-- C5: `Reader::parse` returns a `Record` exactly when the root-node parse
succeeds and the byte source is then exhausted; if the root parse succeeds
but bytes remain it returns `TrailingCharacters` and no record.  (`PR.ok`
and `PR.err` are mutually exclusive outcomes by construction, so a record
is never produced together with, or after, a parse error.) -/
theorem claim_C5_parse_returns_record_iff_exhausted :
    ∀ (cr : CalcRegex) (fuel : Nat) (r : Reader),
      (∀ rec r₂, Reader.parse cr fuel r = .ok rec r₂ →
        ∃ r₁, parseRoot cr fuel r = .ok () r₁ ∧
          r₁.input.pos = r₁.input.input.length) ∧
      (∀ r₁, parseRoot cr fuel r = .ok () r₁ →
        (r₁.input.pos = r₁.input.input.length →
          ∃ rec r₂, Reader.parse cr fuel r = .ok rec r₂) ∧
        (r₁.input.pos ≠ r₁.input.input.length →
          Reader.parse cr fuel r = .err .TrailingCharacters)) := by
  intro cr fuel r
  constructor
  · intro rec r₂ h
    unfold Reader.parse at h
    simp only [bindDef] at h
    obtain ⟨a₀, r₁, h₀, h₁⟩ := bind_ok_elim h
    obtain ⟨e, r₃, h₂, h₃⟩ := bind_ok_elim h₁
    rw [is_emptyM_eval r₁] at h₂
    cases h₂
    by_cases hpos : r₁.input.pos = r₁.input.input.length
    · cases a₀
      exact ⟨r₁, h₀, hpos⟩
    · have hf : (r₁.input.pos == r₁.input.input.length) = false :=
        Bool.eq_false_iff.mpr (by simpa using hpos)
      rw [hf] at h₃
      simp [throwM] at h₃
  · intro r₁ h₁
    constructor
    · intro hpos
      have hb : (r₁.input.pos == r₁.input.input.length) = true := by simpa using hpos
      have hie : is_emptyM r₁ = .ok true r₁ := by rw [← hb]; exact is_emptyM_eval r₁
      obtain ⟨n, c, hcap⟩ := parseRoot_ok_shape h₁
      have hg := get_recordM_ok_of_shape hcap
      refine ⟨{ capture := c, data := r₁.input.split_here.1 },
        { input := r₁.input.split_here.2, captures := [] }, ?_⟩
      unfold Reader.parse
      simp only [bindDef]
      rw [bind_ok_intro h₁]
      show ParseM.bind is_emptyM _ r₁ = _
      rw [bind_ok_intro hie]
      simpa using hg
    · intro hpos
      have hf : (r₁.input.pos == r₁.input.input.length) = false :=
        Bool.eq_false_iff.mpr (by simpa using hpos)
      have hie : is_emptyM r₁ = .ok false r₁ := by rw [← hf]; exact is_emptyM_eval r₁
      unfold Reader.parse
      simp only [bindDef]
      rw [bind_ok_intro h₁]
      show ParseM.bind is_emptyM _ r₁ = PR.err ParserError.TrailingCharacters
      rw [bind_ok_intro hie]
      simp [throwM]

theorem claim_C5_parse_returns_record_iff_exhausted_witness :
    (∃ r₁, parseRoot crC5 10 (Reader.from_array [102, 111, 111]) = .ok () r₁ ∧
      r₁.input.pos = r₁.input.input.length) ∧
    Reader.parse crC5 10 (Reader.from_array [102, 111, 111, 98, 97, 114]) =
      .err .TrailingCharacters :=
  ⟨(claim_C5_parse_returns_record_iff_exhausted crC5 10
      (Reader.from_array [102, 111, 111])).1 recC5 rdC5done (by rfl),
   ((claim_C5_parse_returns_record_iff_exhausted crC5 10
      (Reader.from_array [102, 111, 111, 98, 97, 114])).2 rdC5t
      (by rfl)).2 (by decide)⟩

/-- C7 counterexample: the index numeral `18446744073709551616` (2^64, one
past `usize::MAX`) on the one-element repeat `x` makes `get_single_capture`
return `InvalidCaptureName` (Rust's `usize` parse overflows), not the
`OutOfBounds{index, len}` the claim dictates for an index not below the
repeat's length. -/
theorem claim_C7_counterexample_overflowing_index :
    get_single_capture capC7 "x[18446744073709551616]" =
      .error (.InvalidCaptureName msgNonNumeric) ∧
    get_single_capture capC7 "x[18446744073709551616]" ≠
      .error (.OutOfBounds "x" 18446744073709551616 1) := by
  have h1 : get_single_capture capC7 "x[18446744073709551616]" =
      .error (.InvalidCaptureName msgNonNumeric) := by rfl
  refine ⟨h1, ?_⟩
  rw [h1]
  simp

end CalcRegexProof
